import Mathlib

/-!
Verification of the Forgeron TLV (ASN.1 DER/BER) codec and its byte buffer.

This file shallowly embeds the `ByteStringBuffer` class of `src/util.ts` and the
ASN.1 codec of `src/asn1.ts` (create / copy / equals / fromDer / toDer /
integerToDer / validate) into Lean, and proves properties about them.

JavaScript numbers are modelled as `Int` (all values appearing in these code
paths are integers); the 32-bit wrap-around of JavaScript's bitwise operators
is modelled explicitly by `jsToInt32` / `jsToUint32`.  Binary strings (one
byte per character) are modelled as `List Nat` of the character codes.
-/

namespace Forgeron

/-- JS `ToUint32`: the operand's value modulo 2^32, as a natural number. -/
def jsToUint32 (i : Int) : Nat := (i % 4294967296).toNat

/-- Reinterpret a 32-bit pattern as a signed 32-bit value. -/
def uint32ToInt32 (u : Nat) : Int :=
  if u < 2147483648 then (u : Int) else (u : Int) - 4294967296

/-- JS `ToInt32`: the operand reduced to a signed 32-bit value. -/
def jsToInt32 (i : Int) : Int := uint32ToInt32 (jsToUint32 i)

/-- JS `i >> n` (sign-propagating right shift).  The shift count is reduced
mod 32.  For a positive divisor, Lean's `Int` division rounds toward negative
infinity, which is exactly the arithmetic right shift. -/
def jsShr (i : Int) (n : Nat) : Int := jsToInt32 i / (2 ^ (n % 32) : Int)

/-- JS `i << n` (left shift, wrapping to a signed 32-bit result). -/
def jsShl (i : Int) (n : Nat) : Int := jsToInt32 (i * (2 ^ (n % 32) : Int))

/-- JS `i & 0xFF` (the result of `&` on an int32 with 0xFF is the low byte). -/
def jsAnd255 (i : Int) : Nat := jsToUint32 i % 256

/-- JS `a ^ b` on numbers: xor of the 32-bit patterns, reinterpreted signed. -/
def jsXor32 (a b : Int) : Int := uint32ToInt32 ((jsToUint32 a) ^^^ (jsToUint32 b))

/-- JS `String.fromCharCode`: the code unit is the value mod 2^16. -/
def jsFromCharCode (i : Int) : Nat := ((i % 65536).toNat)

/-! ## ByteStringBuffer (util.ts)

A binary-string backed buffer: `data` is the string (one character code per
entry) and `read` is the read pointer. -/

structure ByteStringBuffer where
  data : List Nat
  read : Nat
deriving DecidableEq

/-- `createBuffer()` with no argument: empty data, read pointer 0. -/
def createBuffer : ByteStringBuffer := ⟨[], 0⟩

/-- `createBuffer(s)` from a binary string. -/
def createBufferOf (s : List Nat) : ByteStringBuffer := ⟨s, 0⟩

namespace ByteStringBuffer

/-- `length()`: `data.length - read`.  (An `Int`, since in JS the read pointer
can in principle pass the end of the data.) -/
def length (b : ByteStringBuffer) : Int := (b.data.length : Int) - b.read

/-- `data.charCodeAt(i)`.  Out-of-range access yields `NaN` in JS; that case is
never reached on the guarded paths modelled here, and is mapped to 0. -/
def charCodeAt (b : ByteStringBuffer) (i : Nat) : Nat := b.data.getD i 0

/-- `putBytes(bytes)`: append to the data. -/
def putBytes (b : ByteStringBuffer) (bytes : List Nat) : ByteStringBuffer :=
  { b with data := b.data ++ bytes }

/-- `putByte(b)`: append `String.fromCharCode(b)`. -/
def putByte (b : ByteStringBuffer) (x : Nat) : ByteStringBuffer :=
  b.putBytes [x % 65536]

/-- `getByte()`: read one character code and advance the read pointer. -/
def getByte (b : ByteStringBuffer) : Nat × ByteStringBuffer :=
  (b.charCodeAt b.read, { b with read := b.read + 1 })

/-- `bytes(count)` with an explicit count: `data.slice(read, read + count)`,
read pointer unmoved. -/
def bytesCount (b : ByteStringBuffer) (count : Nat) : List Nat :=
  (b.data.drop b.read).take count

/-- `bytes()` with no argument: `data.slice(read)`. -/
def bytesAll (b : ByteStringBuffer) : List Nat := b.data.drop b.read

/-- `getBytes(count)` with a positive count: reads `min(length(), count)`
bytes and advances the read pointer.  (`getBytes(0)` returns `''` in JS and
this also holds here.) -/
def getBytesCount (b : ByteStringBuffer) (count : Nat) : List Nat × ByteStringBuffer :=
  if count = 0 then ([], b)
  else
    let c := min (b.data.length - b.read) count
    ((b.data.drop b.read).take c, { b with read := b.read + c })

/-- `getBytes()` with no argument: all remaining bytes, then `clear()`. -/
def getBytesAll (b : ByteStringBuffer) : List Nat × ByteStringBuffer :=
  (b.data.drop b.read, ⟨[], 0⟩)

/-- `putInt16` (big-endian). -/
def putInt16 (b : ByteStringBuffer) (i : Int) : ByteStringBuffer :=
  b.putBytes [jsAnd255 (jsShr i 8), jsAnd255 i]

/-- `putInt32` (big-endian). -/
def putInt32 (b : ByteStringBuffer) (i : Int) : ByteStringBuffer :=
  b.putBytes [jsAnd255 (jsShr i 24), jsAnd255 (jsShr i 16), jsAnd255 (jsShr i 8), jsAnd255 i]

/-- `getInt16()`: `(data.charCodeAt(read) << 8) ^ data.charCodeAt(read+1)`. -/
def getInt16 (b : ByteStringBuffer) : Int × ByteStringBuffer :=
  (jsXor32 (jsShl (b.charCodeAt b.read) 8) (b.charCodeAt (b.read + 1)),
   { b with read := b.read + 2 })

/-- `getInt32()`: xor of the four shifted character codes (a signed int32). -/
def getInt32 (b : ByteStringBuffer) : Int × ByteStringBuffer :=
  (jsXor32 (jsXor32 (jsXor32 (jsShl (b.charCodeAt b.read) 24)
      (jsShl (b.charCodeAt (b.read + 1)) 16))
      (jsShl (b.charCodeAt (b.read + 2)) 8))
      (b.charCodeAt (b.read + 3)),
   { b with read := b.read + 4 })

end ByteStringBuffer

/-- `_checkBitsParam(n)` succeeds exactly on 8, 16, 24 and 32. -/
def checkBitsParam (n : Nat) : Bool := n = 8 || n = 16 || n = 24 || n = 32

/-- The do-while loop of `putInt`: emit `(i >> (n-8)) & 0xFF` and keep going
while the decremented bit count `n - 8` is positive.  (The two patterns
`n + 9` and `n` are exactly the cases `0 < n - 8` and `n - 8 = 0` of the
loop condition, written so that the recursion is structural.) -/
def putIntLoop (i : Int) : Nat → List Nat
  | n + 9 => jsAnd255 (jsShr i (n + 1)) :: putIntLoop i (n + 1)
  | n => [jsAnd255 (jsShr i (n - 8))]

/-- The do-while loop of `getInt`: `rval = (rval << 8) + charCode`, with the
loop condition split into structural patterns as in `putIntLoop`. -/
def getIntLoop (data : List Nat) (read : Nat) (rval : Int) : Nat → Int × Nat
  | n + 9 => getIntLoop data (read + 1) (jsShl rval 8 + (data.getD read 0 : Int)) (n + 1)
  | _ => (jsShl rval 8 + (data.getD read 0 : Int), read + 1)

namespace ByteStringBuffer

/-- Errors thrown by the buffer and codec (message strings elided; the data
fields carried by each error object are kept). -/
inductive JsError where
  /-- `_checkBitsParam`: only 8, 16, 24, or 32 bits supported. -/
  | invalidBits (n : Nat)
  /-- `TooFewBytesDerError(available, remaining, requested)`. -/
  | tooFewBytes (available remaining requested : Int)
  /-- `Negative length` in `_getValueLength`. -/
  | negativeLength (l : Int)
  /-- `Non-constructed ASN.1 object of indefinite length.` -/
  | nonConstructedIndefinite
  /-- `UnparsedDerBytesRemainError(byteCount, remaining)`. -/
  | unparsedBytesRemain (byteCount remaining : Int)
  /-- `Integer too large; max is 32-bits.` with `error.integer = x`. -/
  | integerTooLarge (x : Int)
  /-- `captureBitStringValue only supported for zero unused bits`. -/
  | unsupportedBitAlignment
  /-- Fuel exhaustion of the embedding (not a behaviour of the source; all
  theorems below supply enough fuel for it never to arise). -/
  | outOfFuel
deriving DecidableEq

/-- `putInt(i, n)`: big-endian bytes of the n-bit integer. -/
def putInt (b : ByteStringBuffer) (i : Int) (n : Nat) : Except JsError ByteStringBuffer :=
  if checkBitsParam n then .ok (b.putBytes (putIntLoop i n))
  else .error (.invalidBits n)

/-- `putSignedInt(i, n)`: two's complement; `if (i < 0) i += 2 << (n - 1)`. -/
def putSignedInt (b : ByteStringBuffer) (i : Int) (n : Nat) : Except JsError ByteStringBuffer :=
  b.putInt (if i < 0 then i + jsShl 2 (n - 1) else i) n

/-- `getInt(n)`: big-endian read of an n-bit integer. -/
def getInt (b : ByteStringBuffer) (n : Nat) : Except JsError (Int × ByteStringBuffer) :=
  if checkBitsParam n then
    let r := getIntLoop b.data b.read 0 n
    .ok (r.1, { b with read := r.2 })
  else .error (.invalidBits n)

/-- `getSignedInt(n)`: `max = 2 << (n - 2); if (x >= max) x -= max << 1`. -/
def getSignedInt (b : ByteStringBuffer) (n : Nat) : Except JsError (Int × ByteStringBuffer) :=
  match b.getInt n with
  | .error e => .error e
  | .ok (x, b2) =>
    let max := jsShl 2 (n - 2)
    .ok (if max ≤ x then x - jsShl max 1 else x, b2)

/-- `putBuffer(buffer)`: `putBytes(buffer.getBytes())`. -/
def putBuffer (b : ByteStringBuffer) (src : ByteStringBuffer) : ByteStringBuffer :=
  b.putBytes (src.getBytesAll).1

/-- `getBytes(count)` with a JS-number count (`if (count)` distinguishes 0). -/
def getBytesInt (b : ByteStringBuffer) (count : Int) : List Nat × ByteStringBuffer :=
  if count = 0 then ([], b)
  else
    let c := min b.length count
    ((b.data.drop b.read).take c.toNat, { b with read := b.read + c.toNat })

/-- `bytes(count)` where count may be `undefined` (peek, read pointer unmoved). -/
def bytesOpt (b : ByteStringBuffer) (count : Option Int) : List Nat :=
  match count with
  | none => b.bytesAll
  | some c => (b.data.drop b.read).take c.toNat

end ByteStringBuffer

open ByteStringBuffer (JsError)

/-! ## ASN.1 data model (asn1.ts)

`Class.UNIVERSAL = 0x00`, `APPLICATION = 0x40`, `CONTEXT_SPECIFIC = 0x80`,
`PRIVATE = 0xC0`; `Type.INTEGER = 2`, `Type.BITSTRING = 3`,
`Type.BMPSTRING = 30`.  A node's `value` is either a raw binary string or a
list of child nodes. -/

inductive Asn1 : Type where
  | mk (tagClass : Nat) (type : Nat) (constructed : Bool) (composed : Bool)
       (value : List Nat ⊕ List Asn1)
       (bitStringContents : Option (List Nat))
       (original : Option Asn1)
deriving Repr

namespace Asn1

def tagClass : Asn1 → Nat | .mk tc _ _ _ _ _ _ => tc
def type : Asn1 → Nat | .mk _ ty _ _ _ _ _ => ty
def constructed : Asn1 → Bool | .mk _ _ c _ _ _ _ => c
def composed : Asn1 → Bool | .mk _ _ _ comp _ _ _ => comp
def value : Asn1 → List Nat ⊕ List Asn1 | .mk _ _ _ _ v _ _ => v
def bitStringContents : Asn1 → Option (List Nat) | .mk _ _ _ _ _ b _ => b
def original : Asn1 → Option Asn1 | .mk _ _ _ _ _ _ o => o

end Asn1

/-- `isArray(value)` on the value union. -/
def isNodes : (List Nat ⊕ List Asn1) → Bool
  | .inl _ => false
  | .inr _ => true

/-! `copy(obj, options)`.  The `options` parameter is modelled as
`Option Bool`: `none` for an absent options object, `some e` for
`{excludeBitStringContents: e}`.  Note the source copies `bitStringContents`
only when an options object is present and the flag is false
(`if (options && !options.excludeBitStringContents)`), and never copies the
`original` field. -/

mutual

def copyNode (opts : Option Bool) : Asn1 → Asn1
  | .mk tc ty c comp v bits _orig =>
    .mk tc ty c comp (copyValue opts v)
      (match opts with
       | some false => bits
       | _ => none)
      none

def copyValue (opts : Option Bool) : (List Nat ⊕ List Asn1) → (List Nat ⊕ List Asn1)
  | .inl s => .inl s
  | .inr l => .inr (copyList opts l)

def copyList (opts : Option Bool) : List Asn1 → List Asn1
  | [] => []
  | a :: rest => copyNode opts a :: copyList opts rest

end

/-- `create(tagClass, type, constructed, value, options)`.  (The source first
filters `undefined` entries out of an array value; in this typed model a node
list has no undefined entries.)  When `bitStringContents` is supplied, a copy
of the object (with the contents but without the copied-contents, as `copy`
without options drops them) is stored as `original`. -/
def create (tagClass ty : Nat) (constructed : Bool) (value : List Nat ⊕ List Asn1)
    (options : Option (List Nat)) : Asn1 :=
  let obj := Asn1.mk tagClass ty constructed (constructed || isNodes value) value none none
  match options with
  | none => obj
  | some bits =>
    match obj with
    | .mk tc t c comp v _ _ =>
      let withBits := Asn1.mk tc t c comp v (some bits) none
      Asn1.mk tc t c comp v (some bits) (some (copyNode none withBits))

/-! `equals(obj1, obj2, options)`: deep structural comparison.  The recursive
calls on children and on the value pass no options, so `bitStringContents` is
only compared at the top level and only when requested. -/

mutual

def equalsNode : Asn1 → Asn1 → Bool
  | .mk tc1 t1 c1 comp1 v1 _ _, .mk tc2 t2 c2 comp2 v2 _ _ =>
    tc1 == tc2 && t1 == t2 && c1 == c2 && comp1 == comp2 && equalsValue v1 v2

def equalsValue : (List Nat ⊕ List Asn1) → (List Nat ⊕ List Asn1) → Bool
  | .inl s1, .inl s2 => s1 == s2
  | .inr l1, .inr l2 => equalsList l1 l2
  | _, _ => false

def equalsList : List Asn1 → List Asn1 → Bool
  | [], [] => true
  | a :: as2, b :: bs => equalsNode a b && equalsList as2 bs
  | _, _ => false

end

/-- `equals` with an options object (`includeBitStringContents`). -/
def equalsOpt (includeBits : Bool) (a b : Asn1) : Bool :=
  equalsNode a b && (!includeBits || a.bitStringContents == b.bitStringContents)

/-! ## toDer (asn1.ts)

`toDer` builds the value bytes first (possibly updating the tag byte with
the constructed bit), then emits tag byte, length bytes and value bytes. -/

/-- The little-endian digit loop of `toDer`'s long-form length
(`lenBytes += String.fromCharCode(len & 0xFF); len = len >>> 8`). -/
def lenDigitsLE (len : Nat) : List Nat :=
  let d := len &&& 0xFF
  let len2 := len >>> 8
  if h : 0 < len2 then d :: lenDigitsLE len2 else [d]
termination_by len
decreasing_by
  simp only [Nat.shiftRight_eq_div_pow] at h ⊢
  omega

/-- The length emission of `toDer`: short form for ≤ 127, else
`0x80 | #digits` followed by the big-endian digits. -/
def derEncodeLen (len : Nat) : List Nat :=
  if len ≤ 127 then [(len &&& 0x7F) % 65536]
  else
    let ds := lenDigitsLE len
    ((ds.length ||| 0x80) % 65536) :: ds.reverse.map (fun d => d % 65536)

/-- The BMPSTRING branch of `toDer`: `putInt16(charCodeAt(i))` per character. -/
def bmpBytes : List Nat → List Nat
  | [] => []
  | c :: rest => jsAnd255 (jsShr (c : Int) 8) :: jsAnd255 (c : Int) :: bmpBytes rest

mutual

/-- The value bytes of `toDer` in the branch that does not reuse
`bitStringContents`, together with the (possibly updated) tag byte. -/
def toDerValueBytes (b1 : Nat) (constructed composed : Bool) (ty : Nat)
    (value : List Nat ⊕ List Asn1) : List Nat × Nat :=
  if composed then
    match value with
    | .inr children =>
      -- constructed: set bit 6 of the tag byte; primitive-but-composed
      -- (a decoded BIT STRING): prefix an unused-bits byte 0x00
      if constructed then (toDerChildren children, b1 ||| 0x20)
      else (0 :: toDerChildren children, b1)
    | .inl _ =>
      -- A composed node always holds a node list in this code base; on a raw
      -- string the source would iterate the characters and recurse on
      -- one-character strings, which is not typeable and never reached.
      ([], b1)
  else
    match value with
    | .inr _ => ([], b1)  -- not composed and a node list: contradicts the
                          -- `composed` invariant, never reached
    | .inl v =>
      if ty = 30 then (bmpBytes v, b1)
      else if 1 < v.length ∧ ty = 2 ∧
          ((v.getD 0 0 = 0 ∧ (v.getD 1 0) &&& 0x80 = 0) ∨
           (v.getD 0 0 = 0xFF ∧ (v.getD 1 0) &&& 0x80 = 0x80)) then
        (v.drop 1, b1)  -- INTEGER minimal-encoding: strip one redundant byte
      else (v, b1)

/-- `toDer(obj)`, producing the final byte list of the output buffer. -/
def toDerBytes (obj : Asn1) : List Nat :=
  match obj with
  | .mk tagClass ty constructed composed value bits _orig =>
    let b1 := tagClass ||| ty
    -- use BIT STRING contents if available and data not changed
    let vb1 : List Nat × Nat :=
      match bits with
      | some contents =>
        let use := match obj.original with
          | none => true
          | some o => equalsNode obj o
        if use then (contents, b1)
        else toDerValueBytes b1 constructed composed ty value
      | none => toDerValueBytes b1 constructed composed ty value
    -- tag byte, then short- or long-form length, then the value bytes
    (vb1.2 % 65536) :: derEncodeLen vb1.1.length ++ vb1.1

/-- The child loop of `toDer`: `value.putBuffer(toDer(obj.value[i]))`. -/
def toDerChildren : List Asn1 → List Nat
  | [] => []
  | c :: rest => toDerBytes c ++ toDerChildren rest

end

/-- `toDer(obj)` as a buffer (read pointer 0), as the source returns it. -/
def toDer (obj : Asn1) : ByteStringBuffer := ⟨toDerBytes obj, 0⟩

/-! ## fromDer (asn1.ts) -/

/-- The two option fields consulted by the recursive parser `_fromDer`
(`parseAllBytes` is only read by the top-level `fromDer`). -/
structure ParseOpts where
  strict : Bool
  decodeBitStrings : Bool
deriving DecidableEq, Repr

/-- `_checkBufferLength(bytes, remaining, n)`. -/
def checkBufferLength (bytes : ByteStringBuffer) (remaining n : Int) : Except JsError Unit :=
  if remaining < n then .error (.tooFewBytes bytes.length remaining n) else .ok ()

/-- `_getValueLength(bytes, remaining)`: reads the length prefix; `none`
means indefinite length (`0x80`). -/
def getValueLength (bytes : ByteStringBuffer) (remaining : Int) :
    Except JsError (Option Int × ByteStringBuffer) :=
  let r1 := bytes.getByte
  let b2 := r1.1
  let bytes := r1.2
  let remaining := remaining - 1
  if b2 = 0x80 then .ok (none, bytes)
  else
    let lengthResult : Except JsError (Int × ByteStringBuffer) :=
      if b2 &&& 0x80 = 0 then
        -- short form: length is just the first byte
        .ok ((b2 : Int), bytes)
      else
        let longFormBytes := b2 &&& 0x7F
        match checkBufferLength bytes remaining (longFormBytes : Int) with
        | .error e => .error e
        | .ok _ => bytes.getInt (longFormBytes <<< 3)
    match lengthResult with
    | .error e => .error e
    | .ok (length, bytes) =>
      -- FIXME in source: only for 32-bit getInt with the high bit set
      if length < 0 then .error (.negativeLength length)
      else .ok (some length, bytes)

/-- The BMPSTRING read loop of `_fromDer`. -/
def bmpReadLoop (bytes : ByteStringBuffer) (remaining length : Int) :
    Except JsError (List Nat × ByteStringBuffer × Int) :=
  if h : 0 < length then
    match checkBufferLength bytes remaining 2 with
    | .error e => .error e
    | .ok _ =>
      let r := bytes.getInt16
      match bmpReadLoop r.2 (remaining - 2) (length - 2) with
      | .error e => .error e
      | .ok (rest, bytes3, rem3) => .ok (jsFromCharCode r.1 :: rest, bytes3, rem3)
  else .ok ([], bytes, remaining)
termination_by length.toNat
decreasing_by omega

/-- The speculative decode of a primitive BIT STRING value as nested ASN.1
(lines 630–685 of asn1.ts).  `subParse` is the recursive `_fromDer` call in
enforced-strict mode (`subOptions`), abstracted so that this helper is not
itself recursive.  Returns `none` (with the read position and remaining
count restored) when the attempt is abandoned. -/
def decodeBitStringAttempt
    (subParse : ByteStringBuffer → Int → Except JsError (Asn1 × ByteStringBuffer))
    (ty : Nat) (bytes : ByteStringBuffer) (remaining length : Int) :
    Except JsError (Option (List Asn1) × ByteStringBuffer × Int) :=
  let savedRead := bytes.read
  let savedRemaining := remaining
  let unusedStep : Except JsError (Nat × ByteStringBuffer × Int) :=
    if ty = 3 then
      -- read the unused-bits counter
      match checkBufferLength bytes remaining 1 with
      | .error e => .error e
      | .ok _ =>
        let r := bytes.getByte
        .ok (r.1, r.2, remaining - 1)
    else .ok (0, bytes, remaining)
  match unusedStep with
  | .error e => .error e
  | .ok (unused, bytes, remaining) =>
    let attempt : Option (List Asn1) × ByteStringBuffer × Int :=
      if unused = 0 then
        let start := bytes.length
        match subParse bytes remaining with
        | .error _ => (none, bytes, remaining)  -- caught by the empty catch
        | .ok (composed, bytes2) =>
          let used0 := start - bytes2.length
          let remaining2 := remaining - used0
          let used := if ty = 3 then used0 + 1 else used0
          let tc := composed.tagClass
          if used = length ∧ (tc = 0 ∨ tc = 0x80) then
            (some [composed], bytes2, remaining2)
          else (none, bytes2, remaining2)
      else (none, bytes, remaining)
    match attempt with
    | (none, _, _) =>
      -- value still undefined: restore read position and remaining
      .ok (none, { bytes with read := savedRead }, savedRemaining)
    | r => .ok r

mutual

/-- `_fromDer(bytes, remaining, depth, options)`.  `fuel` bounds the
recursion depth of the embedding (structurally, so that concrete parses
compute); every theorem below supplies enough fuel. -/
def fromDerAux (fuel : Nat) (opts : ParseOpts) (bytes : ByteStringBuffer)
    (remaining : Int) (depth : Nat) : Except JsError (Asn1 × ByteStringBuffer) :=
  match fuel with
  | 0 => .error .outOfFuel
  | fuel + 1 =>
    -- minimum length for an ASN.1 DER structure is 2
    match checkBufferLength bytes remaining 2 with
    | .error e => .error e
    | .ok _ =>
      let r1 := bytes.getByte
      let b1 := r1.1
      let bytes := r1.2
      let remaining := remaining - 1
      let tagClass := b1 &&& 0xC0
      let ty := b1 &&& 0x1F
      let start := bytes.length
      match getValueLength bytes remaining with
      | .error e => .error e
      | .ok (length0, bytes) =>
        let remaining := remaining - (start - bytes.length)
        -- ensure there are enough bytes to get the value
        let lengthAdj : Except JsError (Option Int) :=
          match length0 with
          | some l =>
            if remaining < l then
              if opts.strict then .error (.tooFewBytes bytes.length remaining l)
              else .ok (some remaining)  -- lenient: clamp to remaining
            else .ok (some l)
          | none => .ok none
        match lengthAdj with
        | .error e => .error e
        | .ok length1 =>
          let constructed := b1 &&& 0x20 = 0x20
          let stageA : Except JsError (Option (List Nat ⊕ List Asn1) × ByteStringBuffer × Int) :=
            if constructed then
              match length1 with
              | none =>
                match fromDerChildrenIndefinite fuel opts bytes remaining depth with
                | .error e => .error e
                | .ok (children, bytes2, rem2) => .ok (some (.inr children), bytes2, rem2)
              | some l =>
                match fromDerChildrenDefinite fuel opts bytes l remaining depth with
                | .error e => .error e
                | .ok (children, bytes2, rem2) => .ok (some (.inr children), bytes2, rem2)
            else .ok (none, bytes, remaining)
          match stageA with
          | .error e => .error e
          | .ok (valueA, bytes, remaining) =>
            -- if a BIT STRING, save the contents including padding
            let bitStringContents : Option (List Nat) :=
              match valueA with
              | none =>
                if tagClass = 0 ∧ ty = 3 then some (bytes.bytesOpt length1) else none
              | some _ => none
            -- speculative decode of a primitive BIT STRING as composed
            let stageC : Except JsError (Option (List Nat ⊕ List Asn1) × ByteStringBuffer × Int) :=
              match valueA, length1 with
              | none, some l =>
                if opts.decodeBitStrings ∧ tagClass = 0 ∧ ty = 3 ∧ 1 < l then
                  match decodeBitStringAttempt
                      (fun b r => fromDerAux fuel ⟨true, true⟩ b r (depth + 1))
                      ty bytes remaining l with
                  | .error e => .error e
                  | .ok (attempt, bytes2, rem2) =>
                    .ok ((attempt.map fun children => Sum.inr children), bytes2, rem2)
                else .ok (none, bytes, remaining)
              | v, _ => .ok (v, bytes, remaining)
            match stageC with
            | .error e => .error e
            | .ok (valueC, bytes, remaining) =>
              let stageD : Except JsError ((List Nat ⊕ List Asn1) × ByteStringBuffer × Int) :=
                match valueC with
                | some v => .ok (v, bytes, remaining)
                | none =>
                  -- asn1 not constructed or composed, get raw value
                  let lengthRes : Except JsError Int :=
                    match length1 with
                    | none =>
                      if opts.strict then .error .nonConstructedIndefinite
                      else .ok remaining
                    | some l => .ok l
                  match lengthRes with
                  | .error e => .error e
                  | .ok l =>
                    if ty = 30 then
                      -- BMPSTRING: big-endian UTF-16 code units
                      match bmpReadLoop bytes remaining l with
                      | .error e => .error e
                      | .ok (s, bytes2, rem2) => .ok (.inl s, bytes2, rem2)
                    else
                      let r := bytes.getBytesInt l
                      .ok (.inl r.1, r.2, remaining - l)
              match stageD with
              | .error e => .error e
              | .ok (value, bytes, _remaining) =>
                .ok (create tagClass ty constructed value bitStringContents, bytes)

/-- The definite-length child loop of `_fromDer`:
`while (length > 0) value.push(_fromDer(bytes, length, depth + 1, options))`. -/
def fromDerChildrenDefinite (fuel : Nat) (opts : ParseOpts) (bytes : ByteStringBuffer)
    (length remaining : Int) (depth : Nat) :
    Except JsError (List Asn1 × ByteStringBuffer × Int) :=
  if 0 < length then
    match fuel with
    | 0 => .error .outOfFuel
    | fuel + 1 =>
      let start := bytes.length
      match fromDerAux fuel opts bytes length (depth + 1) with
      | .error e => .error e
      | .ok (child, bytes2) =>
        let consumed := start - bytes2.length
        match fromDerChildrenDefinite fuel opts bytes2 (length - consumed)
            (remaining - consumed) depth with
        | .error e => .error e
        | .ok (rest, bytes3, rem3) => .ok (child :: rest, bytes3, rem3)
  else .ok ([], bytes, remaining)

/-- The indefinite-length child loop of `_fromDer`: read children until the
end-of-contents marker (two zero bytes). -/
def fromDerChildrenIndefinite (fuel : Nat) (opts : ParseOpts) (bytes : ByteStringBuffer)
    (remaining : Int) (depth : Nat) :
    Except JsError (List Asn1 × ByteStringBuffer × Int) :=
  match fuel with
  | 0 => .error .outOfFuel
  | fuel + 1 =>
    match checkBufferLength bytes remaining 2 with
    | .error e => .error e
    | .ok _ =>
      if bytes.bytesCount 2 = [0, 0] then
        .ok ([], (bytes.getBytesInt 2).2, remaining - 2)
      else
        let start := bytes.length
        match fromDerAux fuel opts bytes remaining (depth + 1) with
        | .error e => .error e
        | .ok (child, bytes2) =>
          let consumed := start - bytes2.length
          match fromDerChildrenIndefinite fuel opts bytes2 (remaining - consumed) depth with
          | .error e => .error e
          | .ok (rest, bytes3, rem3) => .ok (child :: rest, bytes3, rem3)

end

/-- `fromDer(bytes, options)`, with all three option fields explicit (the
source defaults each absent field to `true`). -/
def fromDer (fuel : Nat) (data : List Nat)
    (strict parseAllBytes decodeBitStrings : Bool) : Except JsError Asn1 :=
  let bytes := createBufferOf data
  let byteCount := bytes.length
  match fromDerAux fuel ⟨strict, decodeBitStrings⟩ bytes bytes.length 0 with
  | .error e => .error e
  | .ok (value, bytes2) =>
    if parseAllBytes ∧ bytes2.length ≠ 0 then
      .error (.unparsedBytesRemain byteCount bytes2.length)
    else .ok value

/-- `integerToDer(x)`. -/
def integerToDer (x : Int) : Except JsError ByteStringBuffer :=
  if -0x80 ≤ x ∧ x < 0x80 then createBuffer.putSignedInt x 8
  else if -0x8000 ≤ x ∧ x < 0x8000 then createBuffer.putSignedInt x 16
  else if -0x800000 ≤ x ∧ x < 0x800000 then createBuffer.putSignedInt x 24
  else if -0x80000000 ≤ x ∧ x < 0x80000000 then createBuffer.putSignedInt x 32
  else .error (.integerTooLarge x)

/-! ## validate (asn1.ts)

Schema entries carry a `name` string used only inside diagnostic messages;
names and capture keys are modelled as `Nat` identifiers, and the formatted
message strings as a structured type carrying exactly the data interpolated
into each message. -/

inductive Validator : Type where
  | mk (name : Nat) (tagClass : Option Nat) (type : Option Nat)
       (constructed : Option Bool) (optionalFlag : Bool)
       (value : Option (List Validator))
       (capture : Option Nat) (captureAsn1 : Option Nat)
       (captureBitStringContents : Option Nat) (captureBitStringValue : Option Nat)
deriving Repr

namespace Validator

def name : Validator → Nat | .mk n _ _ _ _ _ _ _ _ _ => n
def tagClass : Validator → Option Nat | .mk _ tc _ _ _ _ _ _ _ _ => tc
def type : Validator → Option Nat | .mk _ _ ty _ _ _ _ _ _ _ => ty
def constructed : Validator → Option Bool | .mk _ _ _ c _ _ _ _ _ _ => c
def optionalFlag : Validator → Bool | .mk _ _ _ _ o _ _ _ _ _ => o
def value : Validator → Option (List Validator) | .mk _ _ _ _ _ v _ _ _ _ => v

end Validator

/-- The diagnostic messages pushed onto the `errors` array, with the data
each formatted message interpolates. -/
inductive ValidationDiag where
  /-- `[name] Expected tag class "…", got "…"`. -/
  | expectedTagClass (name : Nat) (expected : Option Nat) (got : Nat)
  /-- `[name] Expected type "…", got "…"`. -/
  | expectedType (name : Nat) (expected : Option Nat) (got : Nat)
  /-- `[name] Expected constructed "…", got "…"`. -/
  | expectedConstructed (name : Nat) (expected : Option Bool) (got : Bool)
  /-- `[name] Tag class "…", type "…" expected value length "…", got "…"`
  (pushed inside the child loop; the name, tag class and type are the parent
  schema entry's). -/
  | expectedValueLength (name : Nat) (tagClass : Option Nat) (type : Option Nat)
      (expected got : Nat)
deriving Repr, DecidableEq

/-- A value stored into the capture map. -/
inductive CaptureVal where
  | value (v : List Nat ⊕ List Asn1)
  | node (a : Asn1)
  | bits (s : List Nat)
deriving Repr

/-- The capture map; `capture[k] = v` is modelled by consing (lookups take
the most recent binding, as JS property assignment overwrites). -/
def CaptureMap : Type := List (Nat × CaptureVal)

/-- `errors.push(d)` when the `errors` array was supplied. -/
def pushDiag (errors : Option (List ValidationDiag)) (d : ValidationDiag) :
    Option (List ValidationDiag) :=
  errors.map (· ++ [d])

/-- `obj.value[j]` as a child node.  (On a raw string value the source would
index the string's characters and recurse on one-character strings — an
untypeable path never reached: the child loop is only relevant for composed
nodes.) -/
def objValueAt (obj : Asn1) (j : Nat) : Option Asn1 :=
  match obj.value with
  | .inr l => l.get? j
  | .inl _ => none

/-- `obj.value.length` (works on both a string and an array in JS). -/
def objValueLength : (List Nat ⊕ List Asn1) → Nat
  | .inl s => s.length
  | .inr l => l.length

mutual

/-- `validate(obj, v, capture, errors)`.  Returns the boolean result together
with the updated capture map and error list; the `UnsupportedBitAlignmentError`
throw is the `Except` error. -/
def validate (obj : Asn1) (v : Validator) (capture : Option CaptureMap)
    (errors : Option (List ValidationDiag)) :
    Except JsError (Bool × Option CaptureMap × Option (List ValidationDiag)) :=
  match v with
  | .mk name vtc vty vcons _vopt vval vcap vcapA vcapB vcapV =>
    if (vtc = none ∨ vtc = some obj.tagClass) ∧ (vty = none ∨ vty = some obj.type) then
      if vcons = none ∨ vcons = some obj.constructed then
        -- rval = true; handle sub values
        match (match vval with
               | some children =>
                 validateLoop children obj 0 name vtc vty children.length
                   (objValueLength obj.value) capture errors
               | none => .ok (true, capture, errors)) with
        | .error e => .error e
        | .ok (rval, capture, errors) =>
          if rval then
            match capture with
            | none => .ok (rval, capture, errors)
            | some m =>
              let m := match vcap with
                | some k => (k, CaptureVal.value obj.value) :: m
                | none => m
              let m := match vcapA with
                | some k => (k, CaptureVal.node obj) :: m
                | none => m
              let m := match vcapB, obj.bitStringContents with
                | some k, some s => (k, CaptureVal.bits s) :: m
                | _, _ => m
              match vcapV, obj.bitStringContents with
              | some k, some s =>
                if s.length < 2 then .ok (rval, some ((k, CaptureVal.bits []) :: m), errors)
                else
                  -- FIXME in source: support unused bits with data shifting
                  if s.getD 0 0 ≠ 0 then .error .unsupportedBitAlignment
                  else .ok (rval, some ((k, CaptureVal.bits (s.drop 1)) :: m), errors)
              | _, _ => .ok (rval, some m, errors)
          else .ok (rval, capture, errors)
      else
        .ok (false, capture, pushDiag errors (.expectedConstructed name vcons obj.constructed))
    else
      -- (when the schema field is a wildcard `undefined`, the comparison in
      -- the message push still uses `!==` against `undefined`)
      let errors := if vtc ≠ some obj.tagClass then
          pushDiag errors (.expectedTagClass name vtc obj.tagClass) else errors
      let errors := if vty ≠ some obj.type then
          pushDiag errors (.expectedType name vty obj.type) else errors
      .ok (false, capture, errors)

/-- The child loop of `validate`:
`for (var i = 0; rval && i < v.value.length; ++i)` with index `j` into the
node's children.  `pname`/`ptc`/`pty`/`vLen`/`objLen` are the parent schema
entry's name, tag class, type, child count and the node's child count, used
by the value-length diagnostic. -/
def validateLoop (children : List Validator) (obj : Asn1) (j : Nat)
    (pname : Nat) (ptc : Option Nat) (pty : Option Nat) (vLen objLen : Nat)
    (capture : Option CaptureMap) (errors : Option (List ValidationDiag)) :
    Except JsError (Bool × Option CaptureMap × Option (List ValidationDiag)) :=
  match children with
  | [] => .ok (true, capture, errors)
  | vi :: rest =>
    match objValueAt obj j with
    | some child =>
      match validate child vi capture errors with
      | .error e => .error e
      | .ok (r, capture2, errors2) =>
        if r then
          validateLoop rest obj (j + 1) pname ptc pty vLen objLen capture2 errors2
        else if vi.optionalFlag then
          validateLoop rest obj j pname ptc pty vLen objLen capture2 errors2
        else
          -- required child failed: push the diagnostic; the loop condition
          -- `rval && i < v.value.length` then terminates the walk
          .ok (false, capture2, pushDiag errors2 (.expectedValueLength pname ptc pty vLen objLen))
    | none =>
      if vi.optionalFlag then
        validateLoop rest obj j pname ptc pty vLen objLen capture errors
      else
        .ok (false, capture, pushDiag errors (.expectedValueLength pname ptc pty vLen objLen))

end

/-! ## Specification-side definitions (used only in theorem statements) -/

/-- The `n`-byte big-endian base-256 digits of `v`. -/
def beBytes : Nat → Nat → List Nat
  | 0, _ => []
  | k + 1, v => (v / 256 ^ k % 256) :: beBytes k v

/-- The value of a big-endian digit list. -/
def beVal (l : List Nat) : Nat := l.foldl (fun acc d => acc * 256 + d) 0

/-- The smallest of the 8/16/24/32-bit two's-complement widths holding `x`
(32 when none of the smaller ones does). -/
def minSignedWidth (x : Int) : Nat :=
  if -0x80 ≤ x ∧ x < 0x80 then 8
  else if -0x8000 ≤ x ∧ x < 0x8000 then 16
  else if -0x800000 ≤ x ∧ x < 0x800000 then 24
  else 32

mutual

/-- The node invariant of the specification:
`composed == constructed || value is a list`, recursively at every node. -/
def invNode : Asn1 → Bool
  | .mk _ _ c comp v _ _ => comp == (c || isNodes v) && invValue v

/-- See `invNode`. -/
def invValue : (List Nat ⊕ List Asn1) → Bool
  | .inl _ => true
  | .inr l => invList l

/-- See `invNode`. -/
def invList : List Asn1 → Bool
  | [] => true
  | a :: rest => invNode a && invList rest

end

mutual

/-- Round-trip-safe trees: the class of nodes whose `toDer` encoding parses
back (`fromDer`) to a structurally equal tree.  `dbs` tells whether the
parse will run with `decodeBitStrings` enabled.  A node is safe when its
tag class is one of the four class values, its tag number is in low-tag
form (< 32), it carries no `bitStringContents`/`original`, `composed`
equals `constructed`, constructed nodes hold safe children, and primitive
values are byte strings (code units < 2^16 for BMPSTRING) that are
minimally encoded for INTEGER and — when the decode-BIT-STRING heuristic is
on — do not trigger it (value of length ≤ 1 or nonzero unused-bits byte). -/
def goodNode (dbs : Bool) : Asn1 → Bool
  | .mk tc ty c comp v bits orig =>
    (tc == 0 || tc == 0x40 || tc == 0x80 || tc == 0xC0) &&
    decide (ty < 32) &&
    (comp == c) && bits.isNone && orig.isNone &&
    (match v with
     | .inr children => c && goodList dbs children
     | .inl s =>
       !c &&
       (if ty == 30 then s.all (· < 65536) else s.all (· < 256)) &&
       (!(ty == 2) || !(decide (1 < s.length) &&
          ((s.getD 0 0 == 0 && (s.getD 1 0) &&& 0x80 == 0) ||
           (s.getD 0 0 == 0xFF && (s.getD 1 0) &&& 0x80 == 0x80)))) &&
       (!(dbs && tc == 0 && ty == 3) || (decide (s.length ≤ 1) || !(s.getD 0 0 == 0))))

/-- See `goodNode`. -/
def goodList (dbs : Bool) : List Asn1 → Bool
  | [] => true
  | a :: rest => goodNode dbs a && goodList dbs rest

end

mutual

/-- Fuel sufficient for `fromDerAux` to parse the encoding of a node. -/
def fuelNode : Asn1 → Nat
  | .mk _ _ _ _ v _ _ => 1 + fuelValue v

/-- See `fuelNode`. -/
def fuelValue : (List Nat ⊕ List Asn1) → Nat
  | .inl _ => 0
  | .inr l => fuelList l

/-- See `fuelNode`. -/
def fuelList : List Asn1 → Nat
  | [] => 0
  | a :: rest => 1 + fuelNode a + fuelList rest

end

/-- Canonical DER inputs, characterised (following the specification's
description of DER: definite minimal lengths, minimally-encoded INTEGERs,
one tag byte) as the encodings of round-trip-safe trees. -/
def CanonicalDer (bytes : List Nat) : Prop :=
  ∃ a, goodNode false a = true ∧ bytes = toDerBytes a

/-! ## Arithmetic lemmas about the JS numeric primitives -/

lemma xor_two_pow_mul_add (k a b : Nat) (hb : b < 2 ^ k) :
    (2 ^ k * a) ^^^ b = 2 ^ k * a + b := by
  induction k generalizing b with
  | zero =>
    interval_cases b
    simp
  | succ k ih =>
    have e1 : 2 ^ (k + 1) * a = 2 * (2 ^ k * a) := by ring
    have hpow : 2 ^ (k + 1) = 2 * 2 ^ k := by ring
    rw [e1]
    have hsplit : (2 * (2 ^ k * a)) ^^^ b =
        2 * ((2 * (2 ^ k * a)) / 2 ^^^ b / 2) + ((2 * (2 ^ k * a)) ^^^ b) % 2 := by
      rw [← Nat.xor_div_two]
      omega
    have hdiv : (2 * (2 ^ k * a)) / 2 = 2 ^ k * a := by omega
    have hb2 : b / 2 < 2 ^ k := by omega
    have hmod : ((2 * (2 ^ k * a)) ^^^ b) % 2 = b % 2 := by
      have h1 := @Nat.xor_mod_two_eq_one (2 * (2 ^ k * a)) b
      have h2 : (2 * (2 ^ k * a)) % 2 = 0 := by omega
      rcases Nat.mod_two_eq_zero_or_one ((2 * (2 ^ k * a)) ^^^ b) with h | h <;>
        rcases Nat.mod_two_eq_zero_or_one b with h3 | h3 <;>
          simp [h, h2, h3] at h1 ⊢ <;> omega
    rw [hsplit, hdiv, hmod, ih _ hb2]
    omega

lemma jsShl_byte_8 (c : Nat) (hc : c < 65536) : jsShl (c : Int) 8 = (256 * c : Nat) := by
  simp only [jsShl, jsToInt32, jsToUint32, uint32ToInt32]
  norm_num
  split_ifs <;> omega

lemma jsXor32_bytes (a b : Nat) (ha : a < 2147483648) (hb : b < 2147483648) :
    jsXor32 (a : Int) (b : Int) = ((a ^^^ b : Nat) : Int) := by
  have hx : (a ^^^ b) < 2147483648 := by
    have h31 : (2147483648 : Nat) = 2 ^ 31 := by norm_num
    rw [h31] at ha hb ⊢
    exact Nat.xor_lt_two_pow ha hb
  simp only [jsXor32, jsToUint32, uint32ToInt32]
  have h1 : ((a : Int) % 4294967296).toNat = a := by omega
  have h2 : ((b : Int) % 4294967296).toNat = b := by omega
  rw [h1, h2, if_pos hx]

/-- `getInt16` on two byte values recomposes big-endian. -/
lemma getInt16_bytes (b : ByteStringBuffer) (c1 c0 : Nat)
    (h1 : b.data.getD b.read 0 = c1) (h0 : b.data.getD (b.read + 1) 0 = c0)
    (hlt1 : c1 < 256) (hlt0 : c0 < 256) :
    b.getInt16 = (((256 * c1 + c0 : Nat) : Int), { b with read := b.read + 2 }) := by
  simp only [ByteStringBuffer.getInt16, ByteStringBuffer.charCodeAt, h1, h0]
  rw [jsShl_byte_8 c1 (by omega), jsXor32_bytes _ _ (by omega) (by omega)]
  have hx := xor_two_pow_mul_add 8 c1 c0 (by omega)
  norm_num at hx
  rw [hx]

lemma byte_of_shr_0 (i : Int) : jsAnd255 (jsShr i 0) = ((i % 256).toNat) := by
  simp only [jsAnd255, jsShr, jsToInt32, jsToUint32, uint32ToInt32]
  norm_num
  split_ifs <;> omega

lemma byte_of_shr_8 (i : Int) : jsAnd255 (jsShr i 8) = ((i / 256 % 256).toNat) := by
  simp only [jsAnd255, jsShr, jsToInt32, jsToUint32, uint32ToInt32]
  norm_num
  split_ifs <;> omega

lemma byte_of_shr_16 (i : Int) : jsAnd255 (jsShr i 16) = ((i / 65536 % 256).toNat) := by
  simp only [jsAnd255, jsShr, jsToInt32, jsToUint32, uint32ToInt32]
  norm_num
  split_ifs <;> omega

lemma byte_of_shr_24 (i : Int) : jsAnd255 (jsShr i 24) = ((i / 16777216 % 256).toNat) := by
  simp only [jsAnd255, jsShr, jsToInt32, jsToUint32, uint32ToInt32]
  norm_num
  split_ifs <;> omega

lemma getIntLoop_step (data : List Nat) (read : Nat) (rval : Int) (n : Nat) (h : 9 ≤ n) :
    getIntLoop data read rval n =
      getIntLoop data (read + 1) (jsShl rval 8 + (data.getD read 0 : Int)) (n - 8) := by
  obtain ⟨m, rfl⟩ : ∃ m, n = m + 9 := ⟨n - 9, by omega⟩
  rfl

lemma getIntLoop_base (data : List Nat) (read : Nat) (rval : Int) (n : Nat) (h : n ≤ 8) :
    getIntLoop data read rval n = (jsShl rval 8 + (data.getD read 0 : Int), read + 1) := by
  interval_cases n <;> rfl

lemma putIntLoop_step (i : Int) (n : Nat) (h : 9 ≤ n) :
    putIntLoop i n = jsAnd255 (jsShr i (n - 8)) :: putIntLoop i (n - 8) := by
  obtain ⟨m, rfl⟩ : ∃ m, n = m + 9 := ⟨n - 9, by omega⟩
  rfl

lemma putIntLoop_eight (i : Int) : putIntLoop i 8 = [(i % 256).toNat] := by
  rw [show putIntLoop i 8 = [jsAnd255 (jsShr i 0)] from rfl]
  norm_num [byte_of_shr_0]

lemma putIntLoop_sixteen (i : Int) :
    putIntLoop i 16 = [(i / 256 % 256).toNat, (i % 256).toNat] := by
  rw [putIntLoop_step i 16 (by norm_num)]
  norm_num [byte_of_shr_8, putIntLoop_eight]

lemma putIntLoop_twentyfour (i : Int) :
    putIntLoop i 24 = [(i / 65536 % 256).toNat, (i / 256 % 256).toNat, (i % 256).toNat] := by
  rw [putIntLoop_step i 24 (by norm_num)]
  norm_num [byte_of_shr_16, putIntLoop_sixteen]

lemma putIntLoop_thirtytwo (i : Int) :
    putIntLoop i 32 = [(i / 16777216 % 256).toNat, (i / 65536 % 256).toNat,
      (i / 256 % 256).toNat, (i % 256).toNat] := by
  rw [putIntLoop_step i 32 (by norm_num)]
  norm_num [byte_of_shr_24, putIntLoop_twentyfour]

lemma jsShl_acc_8 (r : Int) (hr1 : 0 ≤ r) (hr2 : r < 8388608) : jsShl r 8 = 256 * r := by
  simp only [jsShl, jsToInt32, jsToUint32, uint32ToInt32]
  norm_num
  split_ifs <;> omega

lemma jsShl_zero_8 : jsShl 0 8 = 0 := by decide

lemma getIntLoop_one (data : List Nat) (read : Nat) (rv : Int) (hrv1 : 0 ≤ rv)
    (hrv2 : rv < 8388608) :
    getIntLoop data read rv 8 = (256 * rv + ((data.getD read 0 : Nat) : Int), read + 1) := by
  rw [getIntLoop_base data read rv 8 (by norm_num)]
  norm_num [jsShl_acc_8 rv hrv1 hrv2]

lemma jsShl_acc_wrap (r : Int) (hr1 : 0 ≤ r) (hr2 : r < 16777216) :
    jsShl r 8 = uint32ToInt32 (256 * r).toNat := by
  simp only [jsShl, jsToInt32, jsToUint32, uint32ToInt32]
  norm_num
  split_ifs <;> omega

lemma getIntLoop_one_wrap (data : List Nat) (read : Nat) (rv : Int) (hrv1 : 0 ≤ rv)
    (hrv2 : rv < 16777216) (hb : data.getD read 0 < 256) :
    getIntLoop data read rv 8 =
      (uint32ToInt32 ((256 * rv).toNat + data.getD read 0), read + 1) := by
  rw [getIntLoop_base data read rv 8 (by norm_num)]
  simp only [List.getD_eq_getElem?_getD] at hb
  norm_num [jsShl_acc_wrap rv hrv1 hrv2]
  simp only [uint32ToInt32]
  split_ifs <;> push_cast <;> omega

lemma getIntLoop_two (data : List Nat) (read : Nat) (b1 b0 : Nat)
    (h1 : data.getD read 0 = b1) (h0 : data.getD (read + 1) 0 = b0)
    (hlt1 : b1 < 256) :
    getIntLoop data read 0 16 = (((256 * b1 + b0 : Nat) : Int), read + 2) := by
  simp only [List.getD_eq_getElem?_getD] at h1 h0
  rw [getIntLoop_step data read 0 16 (by norm_num)]
  norm_num [jsShl_zero_8, h1]
  rw [getIntLoop_one data (read + 1) (b1 : Int) (by omega) (by omega)]
  simp only [List.getD_eq_getElem?_getD, h0, Prod.mk.injEq]

lemma getIntLoop_three (data : List Nat) (read : Nat) (b2 b1 b0 : Nat)
    (h2 : data.getD read 0 = b2) (h1 : data.getD (read + 1) 0 = b1)
    (h0 : data.getD (read + 2) 0 = b0)
    (hlt2 : b2 < 256) (hlt1 : b1 < 256) :
    getIntLoop data read 0 24 = (((65536 * b2 + 256 * b1 + b0 : Nat) : Int), read + 3) := by
  simp only [List.getD_eq_getElem?_getD] at h2 h1 h0
  rw [getIntLoop_step data read 0 24 (by norm_num)]
  norm_num [jsShl_zero_8, h2]
  rw [getIntLoop_step data (read + 1) (b2 : Int) 16 (by norm_num)]
  norm_num [jsShl_acc_8 (b2 : Int) (by omega) (by omega), h1]
  rw [getIntLoop_one data (read + 1 + 1) (256 * (b2 : Int) + (b1 : Int)) (by positivity) (by push_cast; omega)]
  simp only [List.getD_eq_getElem?_getD, show read + 1 + 1 = read + 2 from rfl, h0,
    Prod.mk.injEq]
  exact ⟨by ring, by trivial⟩

lemma getIntLoop_four (data : List Nat) (read : Nat) (b3 b2 b1 b0 : Nat)
    (h3 : data.getD read 0 = b3) (h2 : data.getD (read + 1) 0 = b2)
    (h1 : data.getD (read + 2) 0 = b1) (h0 : data.getD (read + 3) 0 = b0)
    (hlt3 : b3 < 256) (hlt2 : b2 < 256) (hlt1 : b1 < 256) (hlt0 : b0 < 256) :
    getIntLoop data read 0 32 =
      (uint32ToInt32 (16777216 * b3 + 65536 * b2 + 256 * b1 + b0), read + 4) := by
  simp only [List.getD_eq_getElem?_getD] at h3 h2 h1 h0
  rw [getIntLoop_step data read 0 32 (by norm_num)]
  norm_num [jsShl_zero_8, h3]
  rw [getIntLoop_step data (read + 1) (b3 : Int) 24 (by norm_num)]
  norm_num [jsShl_acc_8 (b3 : Int) (by omega) (by omega), h2]
  rw [getIntLoop_step data (read + 1 + 1) (256 * (b3 : Int) + (b2 : Int)) 16 (by norm_num)]
  norm_num [jsShl_acc_8 (256 * (b3 : Int) + (b2 : Int)) (by positivity) (by push_cast; omega), h1]
  rw [getIntLoop_one_wrap data (read + 1 + 1 + 1)
    (256 * (256 * (b3 : Int) + (b2 : Int)) + (b1 : Int)) (by positivity) (by push_cast; omega)
    (by
      simp only [List.getD_eq_getElem?_getD, show read + 1 + 1 + 1 = read + 3 from rfl, h0]
      omega)]
  simp only [List.getD_eq_getElem?_getD, show read + 1 + 1 + 1 = read + 3 from rfl, h0,
    Prod.mk.injEq]
  refine ⟨?_, by trivial⟩
  have harg : ((256 * (256 * (256 * (b3 : Int) + (b2 : Int)) + (b1 : Int))).toNat + b0) =
      16777216 * b3 + 65536 * b2 + 256 * b1 + b0 := by
    push_cast
    omega
  rw [harg]

end Forgeron

namespace Forgeron

open ByteStringBuffer

lemma uint32ToInt32_lb (u : Nat) : -2147483648 ≤ uint32ToInt32 u := by
  simp only [uint32ToInt32]
  split_ifs <;> omega

lemma uint32ToInt32_of_small (i : Int) (h1 : -2147483648 ≤ i) (h2 : i < 2147483648) :
    uint32ToInt32 ((i % 4294967296).toNat) = i := by
  simp only [uint32ToInt32]
  split_ifs <;> omega

lemma getIntLoop_fst_ge (n : Nat) : ∀ data read rval,
    -2147483648 ≤ (getIntLoop data read rval n).1 := by
  induction n using Nat.strong_induction_on with
  | _ n ih =>
    intro data read rval
    by_cases h9 : 9 ≤ n
    · rw [getIntLoop_step data read rval n h9]
      exact ih (n - 8) (by omega) data (read + 1) _
    · rw [getIntLoop_base data read rval n (by omega)]
      have hb : (0 : Int) ≤ (data.getD read 0 : Int) := by positivity
      have hs : -2147483648 ≤ jsShl rval 8 := by
        simp only [jsShl, jsToInt32]
        exact uint32ToInt32_lb _
      simp only []
      omega

lemma putSignedInt_digits_8 (i : Int) (h1 : -128 ≤ i) (h2 : i < 128) (b : ByteStringBuffer) :
    b.putSignedInt i 8 = .ok (b.putBytes (beBytes 1 ((i % 256).toNat))) := by
  simp only [ByteStringBuffer.putSignedInt, ByteStringBuffer.putInt, checkBitsParam]
  norm_num
  rw [show jsShl 2 7 = 256 from by decide]
  split_ifs with hneg <;>
    simp only [putIntLoop_eight, beBytes] <;> norm_num <;>
    exact congrArg b.putBytes (by simp only [List.cons.injEq, and_true]; omega)

lemma putSignedInt_digits_16 (i : Int) (h1 : -32768 ≤ i) (h2 : i < 32768) (b : ByteStringBuffer) :
    b.putSignedInt i 16 = .ok (b.putBytes (beBytes 2 ((i % 65536).toNat))) := by
  simp only [ByteStringBuffer.putSignedInt, ByteStringBuffer.putInt, checkBitsParam]
  norm_num
  rw [show jsShl 2 15 = 65536 from by decide]
  split_ifs with hneg <;>
    simp only [putIntLoop_sixteen, beBytes] <;> norm_num <;>
    exact congrArg b.putBytes (by simp only [List.cons.injEq, and_true]; omega)

lemma putSignedInt_digits_24 (i : Int) (h1 : -8388608 ≤ i) (h2 : i < 8388608)
    (b : ByteStringBuffer) :
    b.putSignedInt i 24 = .ok (b.putBytes (beBytes 3 ((i % 16777216).toNat))) := by
  simp only [ByteStringBuffer.putSignedInt, ByteStringBuffer.putInt, checkBitsParam]
  norm_num
  rw [show jsShl 2 23 = 16777216 from by decide]
  split_ifs with hneg <;>
    simp only [putIntLoop_twentyfour, beBytes] <;> norm_num <;>
    exact congrArg b.putBytes (by simp only [List.cons.injEq, and_true]; omega)

lemma putSignedInt_digits_32 (i : Int) (h1 : -2147483648 ≤ i) (h2 : i < 2147483648)
    (b : ByteStringBuffer) :
    b.putSignedInt i 32 = .ok (b.putBytes (beBytes 4 ((i % 4294967296).toNat))) := by
  simp only [ByteStringBuffer.putSignedInt, ByteStringBuffer.putInt, checkBitsParam]
  norm_num
  rw [show jsShl 2 31 = 0 from by decide]
  split_ifs with hneg <;>
    simp only [putIntLoop_thirtytwo, beBytes] <;> norm_num <;>
    exact congrArg b.putBytes (by simp only [List.cons.injEq, and_true]; omega)

lemma getInt_ok (b : ByteStringBuffer) (n : Nat) (hn : checkBitsParam n = true) :
    b.getInt n = .ok ((getIntLoop b.data b.read 0 n).1,
      { b with read := (getIntLoop b.data b.read 0 n).2 }) := by
  simp only [ByteStringBuffer.getInt, hn]
  rfl

lemma getInt_ok_of (l : List Nat) (n : Nat) (hn : checkBitsParam n = true) :
    (createBufferOf l).getInt n =
      .ok ((getIntLoop l 0 0 n).1, ⟨l, (getIntLoop l 0 0 n).2⟩) := by
  simp only [ByteStringBuffer.getInt, hn, createBufferOf, if_true]

lemma getSignedInt_of_getInt (b : ByteStringBuffer) (n : Nat) (x : Int)
    (b2 : ByteStringBuffer) (hok : b.getInt n = .ok (x, b2)) :
    b.getSignedInt n =
      .ok (if jsShl 2 (n - 2) ≤ x then x - jsShl (jsShl 2 (n - 2)) 1 else x, b2) := by
  simp only [ByteStringBuffer.getSignedInt, hok]

lemma createBuffer_putBytes (l : List Nat) : createBuffer.putBytes l = createBufferOf l := by
  simp [createBuffer, createBufferOf, ByteStringBuffer.putBytes]

/-- Signed round trip, 8-bit width. -/
lemma signed_roundtrip_8 (i : Int) (h1 : -128 ≤ i) (h2 : i < 128) :
    Except.map Prod.fst ((createBuffer.putSignedInt i 8).bind fun b => b.getSignedInt 8) =
      .ok i := by
  rw [putSignedInt_digits_8 i h1 h2, createBuffer_putBytes]
  have hv : (i % 256).toNat < 256 := by omega
  have hd : (beBytes 1 ((i % 256).toNat)).getD 0 0 = (i % 256).toNat := by
    simp [beBytes]
    omega
  have hget := getInt_ok_of (beBytes 1 ((i % 256).toNat)) 8 rfl
  rw [getIntLoop_one _ 0 0 le_rfl (by norm_num)] at hget
  simp only [hd] at hget
  simp only [Except.bind, Except.map]
  rw [getSignedInt_of_getInt _ 8 _ _ hget]
  rw [show jsShl 2 (8 - 2) = 128 from by decide, show jsShl 128 1 = 256 from by decide]
  split_ifs <;> simp only [Except.map] <;> norm_num <;> omega

/-- Signed round trip, 16-bit width. -/
lemma signed_roundtrip_16 (i : Int) (h1 : -32768 ≤ i) (h2 : i < 32768) :
    Except.map Prod.fst ((createBuffer.putSignedInt i 16).bind fun b => b.getSignedInt 16) =
      .ok i := by
  rw [putSignedInt_digits_16 i h1 h2, createBuffer_putBytes]
  have hget := getInt_ok_of (beBytes 2 ((i % 65536).toNat)) 16 rfl
  rw [getIntLoop_two _ 0 ((i % 65536).toNat / 256 % 256) ((i % 65536).toNat % 256)
    (by simp [beBytes]) (by simp [beBytes]) (by omega)] at hget
  simp only [Except.bind, Except.map]
  rw [getSignedInt_of_getInt _ 16 _ _ hget]
  rw [show jsShl 2 (16 - 2) = 32768 from by decide, show jsShl 32768 1 = 65536 from by decide]
  split_ifs <;> simp only [Except.map] <;> norm_num <;> omega

/-- Signed round trip, 24-bit width. -/
lemma signed_roundtrip_24 (i : Int) (h1 : -8388608 ≤ i) (h2 : i < 8388608) :
    Except.map Prod.fst ((createBuffer.putSignedInt i 24).bind fun b => b.getSignedInt 24) =
      .ok i := by
  rw [putSignedInt_digits_24 i h1 h2, createBuffer_putBytes]
  have hget := getInt_ok_of (beBytes 3 ((i % 16777216).toNat)) 24 rfl
  rw [getIntLoop_three _ 0 ((i % 16777216).toNat / 65536 % 256)
    ((i % 16777216).toNat / 256 % 256) ((i % 16777216).toNat % 256)
    (by simp [beBytes]) (by simp [beBytes]) (by simp [beBytes])
    (by omega) (by omega)] at hget
  simp only [Except.bind, Except.map]
  rw [getSignedInt_of_getInt _ 24 _ _ hget]
  rw [show jsShl 2 (24 - 2) = 8388608 from by decide,
    show jsShl 8388608 1 = 16777216 from by decide]
  split_ifs <;> simp only [Except.map] <;> norm_num <;> omega

/-- Signed round trip, 32-bit width (the bias added by `putSignedInt` is 0
because `2 << 31` wraps to 0, and the value read back is already signed). -/
lemma signed_roundtrip_32 (i : Int) (h1 : -2147483648 ≤ i) (h2 : i < 2147483648) :
    Except.map Prod.fst ((createBuffer.putSignedInt i 32).bind fun b => b.getSignedInt 32) =
      .ok i := by
  rw [putSignedInt_digits_32 i h1 h2, createBuffer_putBytes]
  have hget := getInt_ok_of (beBytes 4 ((i % 4294967296).toNat)) 32 rfl
  rw [getIntLoop_four _ 0 ((i % 4294967296).toNat / 16777216 % 256)
    ((i % 4294967296).toNat / 65536 % 256) ((i % 4294967296).toNat / 256 % 256)
    ((i % 4294967296).toNat % 256)
    (by simp [beBytes]) (by simp [beBytes])
    (by simp [beBytes]) (by simp [beBytes])
    (by omega) (by omega) (by omega) (by omega)] at hget
  have hval : uint32ToInt32 (16777216 * ((i % 4294967296).toNat / 16777216 % 256) +
      65536 * ((i % 4294967296).toNat / 65536 % 256) +
      256 * ((i % 4294967296).toNat / 256 % 256) + (i % 4294967296).toNat % 256) = i := by
    have harg : 16777216 * ((i % 4294967296).toNat / 16777216 % 256) +
        65536 * ((i % 4294967296).toNat / 65536 % 256) +
        256 * ((i % 4294967296).toNat / 256 % 256) + (i % 4294967296).toNat % 256 =
        (i % 4294967296).toNat := by omega
    rw [harg]
    exact uint32ToInt32_of_small i h1 h2
  rw [hval] at hget
  simp only [Except.bind, Except.map]
  rw [getSignedInt_of_getInt _ 32 _ _ hget]
  rw [show jsShl 2 (32 - 2) = -2147483648 from by decide,
    show jsShl (-2147483648) 1 = 0 from by decide]
  rw [if_pos h1]
  simp only [Except.map]
  norm_num

/-- C10: for every width n in {8, 16, 24, 32} and every integer i with
-2^(n-1) ≤ i < 2^(n-1), writing i with `putSignedInt(i, n)` into a fresh
buffer and then reading with `getSignedInt(n)` returns exactly i. -/
theorem c10_put_get_signed_roundtrip (n : Nat) (hn : n = 8 ∨ n = 16 ∨ n = 24 ∨ n = 32)
    (i : Int) (h1 : -(2 ^ (n - 1)) ≤ i) (h2 : i < 2 ^ (n - 1)) :
    Except.map Prod.fst ((createBuffer.putSignedInt i n).bind fun b => b.getSignedInt n) =
      .ok i := by
  rcases hn with rfl | rfl | rfl | rfl
  · norm_num at h1 h2
    exact signed_roundtrip_8 i h1 h2
  · norm_num at h1 h2
    exact signed_roundtrip_16 i h1 h2
  · norm_num at h1 h2
    exact signed_roundtrip_24 i h1 h2
  · norm_num at h1 h2
    exact signed_roundtrip_32 i h1 h2

/-- Witness for C10 at n = 16, i = -5. -/
theorem c10_put_get_signed_roundtrip_witness :
    Except.map Prod.fst ((createBuffer.putSignedInt (-5) 16).bind fun b => b.getSignedInt 16) =
      .ok (-5) :=
  c10_put_get_signed_roundtrip 16 (by norm_num) (-5) (by norm_num) (by norm_num)

/-- C7 (counterexample): `putSignedInt(-1, 8)` writes the single byte 0xFF =
255 = (-1) + 2^8, not (-1) + 2^(8-1) = 127: the two's-complement bias applied
on write is 2^n, not 2^(n-1) as the claim states. -/
theorem c7_counterexample :
    createBuffer.putSignedInt (-1) 8 = .ok ⟨[255], 0⟩ ∧ (255 : Int) ≠ -1 + 2 ^ (8 - 1) := by
  constructor
  · rfl
  · decide

/-- C7 (amended): for every width n in {8, 16, 24, 32} and negative i
representable in n-bit two's complement, `putSignedInt(i, n)` writes the
unsigned value i + 2^n (for n = 32 the literal `2 << 31` wraps to 0, but the
written bytes are still those of i + 2^32); symmetrically `getSignedInt(n)`
for n in {8, 16, 24} subtracts 2^n when the raw value is at least half the
unsigned range 2^(n-1), and for n = 32 returns the (already signed) raw
32-bit read unchanged. -/
theorem c7_twos_complement_bias :
    (∀ n : Nat, n = 8 ∨ n = 16 ∨ n = 24 ∨ n = 32 → ∀ i : Int,
       -(2 ^ (n - 1)) ≤ i → i < 0 → ∀ b : ByteStringBuffer,
         b.putSignedInt i n = b.putInt (i + 2 ^ n) n) ∧
    (∀ n : Nat, n = 8 ∨ n = 16 ∨ n = 24 → ∀ b b2 : ByteStringBuffer, ∀ x : Int,
       b.getInt n = .ok (x, b2) →
         b.getSignedInt n = .ok (if 2 ^ (n - 1) ≤ x then x - 2 ^ n else x, b2)) ∧
    (∀ b b2 : ByteStringBuffer, ∀ x : Int,
       b.getInt 32 = .ok (x, b2) → b.getSignedInt 32 = .ok (x, b2)) := by
  refine ⟨?_, ?_, ?_⟩
  · intro n hn i h1 h2 b
    rcases hn with rfl | rfl | rfl | rfl <;>
      simp only [ByteStringBuffer.putSignedInt, if_pos h2]
    · rw [show jsShl 2 (8 - 1) = 256 from by decide]
      norm_num
    · rw [show jsShl 2 (16 - 1) = 65536 from by decide]
      norm_num
    · rw [show jsShl 2 (24 - 1) = 16777216 from by decide]
      norm_num
    · rw [show jsShl 2 (32 - 1) = 0 from by decide]
      norm_num at h1
      simp only [ByteStringBuffer.putInt, checkBitsParam]
      norm_num
      rw [putIntLoop_thirtytwo, putIntLoop_thirtytwo]
      exact congrArg b.putBytes (by
        simp only [List.cons.injEq, and_true]
        refine ⟨by omega, by omega, by omega, by omega⟩)
  · intro n hn b b2 x hok
    have hx := getSignedInt_of_getInt b n x b2 hok
    rcases hn with rfl | rfl | rfl
    · rw [show jsShl 2 (8 - 2) = 128 from by decide,
        show jsShl 128 1 = 256 from by decide] at hx
      rw [hx]
      norm_num
    · rw [show jsShl 2 (16 - 2) = 32768 from by decide,
        show jsShl 32768 1 = 65536 from by decide] at hx
      rw [hx]
      norm_num
    · rw [show jsShl 2 (24 - 2) = 8388608 from by decide,
        show jsShl 8388608 1 = 16777216 from by decide] at hx
      rw [hx]
      norm_num
  · intro b b2 x hok
    have hxval : -2147483648 ≤ x := by
      have h0 := getInt_ok b 32 rfl
      rw [h0] at hok
      have := getIntLoop_fst_ge 32 b.data b.read 0
      have hpair := Except.ok.inj hok
      have hx1 : (getIntLoop b.data b.read 0 32).1 = x := congrArg Prod.fst hpair
      omega
    have hx := getSignedInt_of_getInt b 32 x b2 hok
    rw [show jsShl 2 (32 - 2) = -2147483648 from by decide,
      show jsShl (-2147483648) 1 = 0 from by decide, if_pos hxval] at hx
    rw [hx]
    norm_num

/-- Witness for C7 at n = 8, i = -1 (write half) and a concrete read. -/
theorem c7_twos_complement_bias_witness :
    createBuffer.putSignedInt (-1) 8 = createBuffer.putInt ((-1) + 2 ^ 8) 8 ∧
    (createBufferOf [200]).getSignedInt 8 =
      .ok (if 2 ^ (8 - 1) ≤ (200 : Int) then (200 : Int) - 2 ^ 8 else 200, ⟨[200], 1⟩) :=
  ⟨c7_twos_complement_bias.1 8 (Or.inl rfl) (-1) (by norm_num) (by norm_num) createBuffer,
   c7_twos_complement_bias.2.1 8 (Or.inl rfl) (createBufferOf [200]) ⟨[200], 1⟩ 200 (by rfl)⟩

/-- C8 (counterexample): `putInt32(0xDEADBEEF)` then `getInt32()` returns the
signed 32-bit value -559038737, not the claimed unsigned 3735928559. -/
theorem c8_counterexample :
    (createBuffer.putInt32 3735928559).getInt32 =
      (-559038737, ⟨[222, 173, 190, 239], 4⟩) ∧ (-559038737 : Int) ≠ 3735928559 := by
  constructor
  · decide
  · decide

/-- C8 (amended): `putInt32(0xDEADBEEF)` writes the bytes DE AD BE EF, and
`getInt32()` returns the signed 32-bit integer -559038737, which is
0xDEADBEEF modulo 2^32 (the return type is signed, not unsigned). -/
theorem c8_put_get_int32 :
    ((createBuffer.putInt32 3735928559).getInt32).1 = -559038737 ∧
    (-559038737 : Int) % 4294967296 = 3735928559 ∧
    (createBuffer.putInt32 3735928559).data = [222, 173, 190, 239] := by
  refine ⟨by decide, by decide, by decide⟩

/-- C6: `integerToDer(x)` encodes x in the smallest of the 8-, 16-, 24- or
32-bit two's-complement widths that holds x (the bytes are the big-endian
digits of x mod 2^w for that width w); 0, -1, 128 and -129 encode to the
documented examples; and every x outside the signed 32-bit range fails with
the integer-overflow error carrying x. -/
theorem c6_integer_to_der :
    (∀ x : Int, -2147483648 ≤ x → x < 2147483648 →
       integerToDer x = .ok (createBufferOf
         (beBytes (minSignedWidth x / 8) ((x % 2 ^ minSignedWidth x).toNat)))) ∧
    (∀ x : Int, x < -2147483648 ∨ 2147483648 ≤ x →
       integerToDer x = .error (.integerTooLarge x)) ∧
    integerToDer 0 = .ok (createBufferOf [0x00]) ∧
    integerToDer (-1) = .ok (createBufferOf [0xFF]) ∧
    integerToDer 128 = .ok (createBufferOf [0x00, 0x80]) ∧
    integerToDer (-129) = .ok (createBufferOf [0xFF, 0x7F]) := by
  refine ⟨?_, ?_, by rfl, by rfl, by rfl, by rfl⟩
  · intro x hx1 hx2
    unfold integerToDer minSignedWidth
    split_ifs with hA hB hC hD
    · rw [putSignedInt_digits_8 x hA.1 hA.2, createBuffer_putBytes]
      norm_num
    · rw [putSignedInt_digits_16 x hB.1 hB.2, createBuffer_putBytes]
      norm_num
    · rw [putSignedInt_digits_24 x hC.1 hC.2, createBuffer_putBytes]
      norm_num
    · rw [putSignedInt_digits_32 x hD.1 hD.2, createBuffer_putBytes]
      norm_num
    · exact (hD ⟨hx1, hx2⟩).elim
  · intro x hx
    unfold integerToDer
    split_ifs with h1 h2 h3 h4
    · exfalso
      rcases hx with h | h <;> omega
    · exfalso
      rcases hx with h | h <;> omega
    · exfalso
      rcases hx with h | h <;> omega
    · exfalso
      rcases hx with h | h <;> omega
    · rfl

/-- Witness for C6 at x = 128 (in range) and x = 5000000000 (overflow). -/
theorem c6_integer_to_der_witness :
    integerToDer 128 = .ok (createBufferOf
      (beBytes (minSignedWidth 128 / 8) (((128 : Int) % 2 ^ minSignedWidth 128).toNat))) ∧
    integerToDer 5000000000 = .error (.integerTooLarge 5000000000) :=
  ⟨c6_integer_to_der.1 128 (by norm_num) (by norm_num),
   c6_integer_to_der.2.1 5000000000 (Or.inr (by norm_num))⟩

/-- C3 (counterexample): the input [0x1F, 0x00], whose tag byte has tag
number 31 (low five bits all set), parses successfully to a primitive
UNIVERSAL node of type 31 with empty value — no error of any kind is
raised, and the source contains no `UnsupportedTagFormError` at all. -/
theorem c3_counterexample :
    fromDer 10 [0x1F, 0x00] true true true = .ok (create 0 31 false (.inl []) none) := rfl

/-- C3 (amended): the parser does not treat tag numbers ≥ 31 specially:
bits 1–5 of the tag byte are taken as the tag number and parsing proceeds.
For every tag byte `b` with tag number 31 followed by a zero length byte,
`fromDer` returns a node with tag class `b & 0xC0`, type 31, the
constructed flag from bit 6, and an empty value. -/
theorem c3_tag_number_31_parses (b : Nat) (hb : b < 256) (h31 : b &&& 0x1F = 31) :
    fromDer 10 [b, 0] true true true =
      .ok (create (b &&& 0xC0) 31 (decide (b &&& 0x20 = 0x20))
        (if b &&& 0x20 = 0x20 then Sum.inr [] else Sum.inl []) none) := by
  interval_cases b <;> first | rfl | exact absurd h31 (by decide)

/-- Witness for the amended C3 at the tag byte 0x1F. -/
theorem c3_tag_number_31_parses_witness :
    fromDer 10 [31, 0] true true true =
      .ok (create (31 &&& 0xC0) 31 (decide (31 &&& 0x20 = 0x20))
        (if 31 &&& 0x20 = 0x20 then Sum.inr [] else Sum.inl []) none) :=
  c3_tag_number_31_parses 31 (by decide) (by decide)

/-- C5 (counterexample): a SEQUENCE schema with two required children
(INTEGER named 2, then OID named 3) validated against a node whose single
child is a NULL: the first required child fails, `validate` returns false,
and the error list holds only the diagnostics produced at that failing
child (its type mismatch and one value-length message) — nothing is
appended for the remaining schema child (named 3): the walk stops. -/
theorem c5_counterexample :
    validate
      (create 0 16 true (.inr [create 0 5 false (.inl []) none]) none)
      (.mk 1 (some 0) (some 16) (some true) false
        (some [.mk 2 (some 0) (some 2) (some false) false none none none none none,
               .mk 3 (some 0) (some 6) (some false) false none none none none none])
        none none none none)
      none (some []) =
      .ok (false, none, some [.expectedType 2 (some 2) 5,
        .expectedValueLength 1 (some 0) (some 16) 2 1]) := rfl

/-- C5 (amended): when a required (non-optional) schema child fails to match
at the current position — or the node has no child there — `validate`
records overall failure and appends one value-length diagnostic, and then
stops the walk: the loop condition `rval && i < v.value.length` fails, so
the remaining schema children after the failing one are skipped and
contribute no further diagnostics (the result does not depend on them). -/
theorem c5_required_failure_stops :
    (∀ (vi : Validator) (rest : List Validator) (obj : Asn1) (j pname : Nat)
       (ptc pty : Option Nat) (vLen objLen : Nat) (capture : Option CaptureMap)
       (errors : Option (List ValidationDiag)) (cap2 : Option CaptureMap)
       (errs2 : Option (List ValidationDiag)) (child : Asn1),
       objValueAt obj j = some child →
       validate child vi capture errors = .ok (false, cap2, errs2) →
       vi.optionalFlag = false →
       validateLoop (vi :: rest) obj j pname ptc pty vLen objLen capture errors =
         .ok (false, cap2, pushDiag errs2 (.expectedValueLength pname ptc pty vLen objLen))) ∧
    (∀ (vi : Validator) (rest : List Validator) (obj : Asn1) (j pname : Nat)
       (ptc pty : Option Nat) (vLen objLen : Nat) (capture : Option CaptureMap)
       (errors : Option (List ValidationDiag)),
       objValueAt obj j = none →
       vi.optionalFlag = false →
       validateLoop (vi :: rest) obj j pname ptc pty vLen objLen capture errors =
         .ok (false, capture, pushDiag errors (.expectedValueLength pname ptc pty vLen objLen))) := by
  constructor
  · intro vi rest obj j pname ptc pty vLen objLen capture errors cap2 errs2 child h1 h2 h3
    simp only [validateLoop, h1, h2, h3]
    norm_num
  · intro vi rest obj j pname ptc pty vLen objLen capture errors h1 h2
    simp only [validateLoop, h1, h2]
    norm_num

/-- Witness for the amended C5: the failing INTEGER child of the
counterexample's schema, followed by a further (skipped) schema child. -/
theorem c5_required_failure_stops_witness :
    validateLoop
      [Validator.mk 2 (some 0) (some 2) (some false) false none none none none none,
       Validator.mk 3 (some 0) (some 6) (some false) false none none none none none]
      (create 0 16 true (.inr [create 0 5 false (.inl []) none]) none)
      0 1 (some 0) (some 16) 2 1 none (some []) =
      .ok (false, none, pushDiag (some [.expectedType 2 (some 2) 5])
        (.expectedValueLength 1 (some 0) (some 16) 2 1)) :=
  c5_required_failure_stops.1
    (Validator.mk 2 (some 0) (some 2) (some false) false none none none none none)
    [Validator.mk 3 (some 0) (some 6) (some false) false none none none none none]
    (create 0 16 true (.inr [create 0 5 false (.inl []) none]) none)
    0 1 (some 0) (some 16) 2 1 none (some []) none (some [.expectedType 2 (some 2) 5])
    (create 0 5 false (.inl []) none) rfl rfl rfl

/-- `copy` leaves the shape of the value union unchanged. -/
theorem isNodes_copyValue (opts : Option Bool) (v : List Nat ⊕ List Asn1) :
    isNodes (copyValue opts v) = isNodes v := by
  cases v <;> rfl

mutual

/-- `copy` preserves the node invariant. -/
theorem copyNode_inv (opts : Option Bool) :
    ∀ a, invNode a = true → invNode (copyNode opts a) = true
  | .mk _tc _ty c comp v _bits _orig, h => by
    simp only [copyNode, invNode, isNodes_copyValue, Bool.and_eq_true, beq_iff_eq] at h ⊢
    exact ⟨h.1, copyValue_inv opts v h.2⟩

/-- See `copyNode_inv`. -/
theorem copyValue_inv (opts : Option Bool) :
    ∀ v, invValue v = true → invValue (copyValue opts v) = true
  | .inl _, h => h
  | .inr l, h => copyList_inv opts l h

/-- See `copyNode_inv`. -/
theorem copyList_inv (opts : Option Bool) :
    ∀ l, invList l = true → invList (copyList opts l) = true
  | [], h => h
  | a :: rest, h => by
    simp only [copyList, invList, Bool.and_eq_true] at h ⊢
    exact ⟨copyNode_inv opts a h.1, copyList_inv opts rest h.2⟩

end

/-- `create` establishes the invariant at the new node (it sets
`composed := constructed || isArray(value)` itself) provided the supplied
children satisfy it. -/
theorem create_inv (tc ty : Nat) (c : Bool) (v : List Nat ⊕ List Asn1)
    (o : Option (List Nat)) (h : invValue v = true) :
    invNode (create tc ty c v o) = true := by
  cases o <;> simp [create, invNode, h]

/-- When the speculative BIT STRING re-decode succeeds, the produced value is
a singleton child list whose node came from the nested parse; if that nested
parse only yields invariant-satisfying nodes, so does the attempt. -/
theorem decodeBitStringAttempt_inv
    (sub : ByteStringBuffer → Int → Except JsError (Asn1 × ByteStringBuffer))
    (hsub : ∀ b r a b2, sub b r = .ok (a, b2) → invNode a = true)
    (ty : Nat) (bytes : ByteStringBuffer) (remaining length : Int)
    (attempt : Option (List Asn1)) (b2 : ByteStringBuffer) (r2 : Int)
    (v : List Nat ⊕ List Asn1)
    (h : decodeBitStringAttempt sub ty bytes remaining length = .ok (attempt, b2, r2))
    (hmap : Option.map (fun children => (Sum.inr children : List Nat ⊕ List Asn1)) attempt
      = some v) :
    invValue v = true := by
  rw [decodeBitStringAttempt] at h
  repeat' (first | split at h | dsimp only [] at h)
  all_goals first
    | (simp at h
       done)
    | (injection h with h1
       injection h1 with hm hrest
       subst hm
       first
         | (simp at hmap
            done)
         | (injection hmap with hv
            subst hv
            simp only [invValue, invList, Bool.and_true]
            solve_by_elim [hsub]))

/-- Every node returned by `_fromDer` (at any fuel) satisfies the invariant,
as do the child lists produced by the two child-reading loops. -/
theorem parserInv : ∀ fuel : Nat,
    (∀ (opts : ParseOpts) (bytes : ByteStringBuffer) (remaining : Int) (depth : Nat)
       (a : Asn1) (b2 : ByteStringBuffer),
       fromDerAux fuel opts bytes remaining depth = .ok (a, b2) → invNode a = true) ∧
    (∀ (opts : ParseOpts) (bytes : ByteStringBuffer) (length remaining : Int) (depth : Nat)
       (l : List Asn1) (b2 : ByteStringBuffer) (r2 : Int),
       fromDerChildrenDefinite fuel opts bytes length remaining depth = .ok (l, b2, r2) →
       invList l = true) ∧
    (∀ (opts : ParseOpts) (bytes : ByteStringBuffer) (remaining : Int) (depth : Nat)
       (l : List Asn1) (b2 : ByteStringBuffer) (r2 : Int),
       fromDerChildrenIndefinite fuel opts bytes remaining depth = .ok (l, b2, r2) →
       invList l = true) := by
  intro fuel
  induction fuel with
  | zero =>
    refine ⟨?_, ?_, ?_⟩
    · intro opts bytes remaining depth a b2 h
      simp [fromDerAux] at h
    · intro opts bytes length remaining depth l b2 r2 h
      rw [fromDerChildrenDefinite] at h
      split at h
      · simp at h
      · injection h with h1
        injection h1 with ha hb
        subst ha
        rfl
    · intro opts bytes remaining depth l b2 r2 h
      simp [fromDerChildrenIndefinite] at h
  | succ fuel ih =>
    obtain ⟨ihA, ihD, ihI⟩ := ih
    refine ⟨?_, ?_, ?_⟩
    · intro opts bytes remaining depth a b2 h
      have hsubA : ∀ (b : ByteStringBuffer) (r : Int) (a2 : Asn1) (b3 : ByteStringBuffer),
          fromDerAux fuel ⟨true, true⟩ b r (depth + 1) = .ok (a2, b3) → invNode a2 = true :=
        fun b r a2 b3 hh => ihA _ _ _ _ _ _ hh
      rw [fromDerAux] at h
      try dsimp only [] at h
      cases hc : checkBufferLength bytes remaining 2 with
      | error e => rw [hc] at h; simp at h
      | ok u =>
      rw [hc] at h
      try dsimp only [] at h
      cases hl : getValueLength bytes.getByte.2 (remaining - 1) with
      | error e => rw [hl] at h; simp at h
      | ok p =>
      obtain ⟨length0, bytes3⟩ := p
      rw [hl] at h
      try dsimp only [] at h
      set R3 := remaining - 1 - (bytes.getByte.2.length - bytes3.length) with hR3
      cases length0 with
      | some l =>
        try dsimp only [] at h
        by_cases hlt : R3 < l
        · rw [if_pos hlt] at h
          by_cases hst : opts.strict = true
          · rw [if_pos hst] at h
            try dsimp only [] at h
            simp at h
          · rw [if_neg hst] at h
            try dsimp only [] at h
            by_cases hcon : bytes.getByte.1 &&& 32 = 32
            · rw [if_pos hcon] at h
              try dsimp only [] at h
              cases hd : fromDerChildrenDefinite fuel opts bytes3 R3 R3 depth with
              | error e => rw [hd] at h; simp at h
              | ok t =>
              obtain ⟨children, bytes4, rem4⟩ := t
              rw [hd] at h
              try dsimp only [] at h
              injection h with h1
              injection h1 with ha hb
              subst ha
              exact create_inv _ _ _ _ _ (ihD _ _ _ _ _ _ _ _ hd)
            · rw [if_neg hcon] at h
              try dsimp only [] at h
              by_cases hdbs : opts.decodeBitStrings = true ∧ bytes.getByte.1 &&& 192 = 0 ∧
                  bytes.getByte.1 &&& 31 = 3 ∧ 1 < R3
              · rw [if_pos hdbs] at h
                cases hat : decodeBitStringAttempt
                    (fun b r => fromDerAux fuel ⟨true, true⟩ b r (depth + 1))
                    (bytes.getByte.1 &&& 31) bytes3 R3 R3 with
                | error e => rw [hat] at h; simp at h
                | ok t =>
                obtain ⟨attempt, bytes4, rem4⟩ := t
                rw [hat] at h
                try dsimp only [] at h
                cases attempt with
                | some children =>
                  simp only [Option.map_some'] at h
                  try dsimp only [] at h
                  injection h with h1
                  injection h1 with ha hb
                  subst ha
                  exact create_inv _ _ _ _ _
                    (decodeBitStringAttempt_inv _ hsubA _ _ _ _ _ _ _ _ hat rfl)
                | none =>
                  simp only [Option.map_none'] at h
                  try dsimp only [] at h
                  rw [hdbs.2.2.1] at h
                  rw [if_neg (by decide : ¬((3 : Nat) = 30))] at h
                  injection h with h1
                  injection h1 with ha hb
                  subst ha
                  exact create_inv _ _ _ _ _ rfl
              · rw [if_neg hdbs] at h
                try dsimp only [] at h
                by_cases h30 : bytes.getByte.1 &&& 31 = 30
                · rw [if_pos h30] at h
                  cases hbmp : bmpReadLoop bytes3 R3 R3 with
                  | error e => rw [hbmp] at h; simp at h
                  | ok t =>
                  obtain ⟨sv, bytes4, rem4⟩ := t
                  rw [hbmp] at h
                  try dsimp only [] at h
                  injection h with h1
                  injection h1 with ha hb
                  subst ha
                  exact create_inv _ _ _ _ _ rfl
                · rw [if_neg h30] at h
                  try dsimp only [] at h
                  injection h with h1
                  injection h1 with ha hb
                  subst ha
                  exact create_inv _ _ _ _ _ rfl
        · rw [if_neg hlt] at h
          try dsimp only [] at h
          by_cases hcon : bytes.getByte.1 &&& 32 = 32
          · rw [if_pos hcon] at h
            try dsimp only [] at h
            cases hd : fromDerChildrenDefinite fuel opts bytes3 l R3 depth with
            | error e => rw [hd] at h; simp at h
            | ok t =>
            obtain ⟨children, bytes4, rem4⟩ := t
            rw [hd] at h
            try dsimp only [] at h
            injection h with h1
            injection h1 with ha hb
            subst ha
            exact create_inv _ _ _ _ _ (ihD _ _ _ _ _ _ _ _ hd)
          · rw [if_neg hcon] at h
            try dsimp only [] at h
            by_cases hdbs : opts.decodeBitStrings = true ∧ bytes.getByte.1 &&& 192 = 0 ∧
                bytes.getByte.1 &&& 31 = 3 ∧ 1 < l
            · rw [if_pos hdbs] at h
              cases hat : decodeBitStringAttempt
                  (fun b r => fromDerAux fuel ⟨true, true⟩ b r (depth + 1))
                  (bytes.getByte.1 &&& 31) bytes3 R3 l with
              | error e => rw [hat] at h; simp at h
              | ok t =>
              obtain ⟨attempt, bytes4, rem4⟩ := t
              rw [hat] at h
              try dsimp only [] at h
              cases attempt with
              | some children =>
                simp only [Option.map_some'] at h
                try dsimp only [] at h
                injection h with h1
                injection h1 with ha hb
                subst ha
                exact create_inv _ _ _ _ _
                  (decodeBitStringAttempt_inv _ hsubA _ _ _ _ _ _ _ _ hat rfl)
              | none =>
                simp only [Option.map_none'] at h
                try dsimp only [] at h
                rw [hdbs.2.2.1] at h
                rw [if_neg (by decide : ¬((3 : Nat) = 30))] at h
                injection h with h1
                injection h1 with ha hb
                subst ha
                exact create_inv _ _ _ _ _ rfl
            · rw [if_neg hdbs] at h
              try dsimp only [] at h
              by_cases h30 : bytes.getByte.1 &&& 31 = 30
              · rw [if_pos h30] at h
                cases hbmp : bmpReadLoop bytes3 R3 l with
                | error e => rw [hbmp] at h; simp at h
                | ok t =>
                obtain ⟨sv, bytes4, rem4⟩ := t
                rw [hbmp] at h
                try dsimp only [] at h
                injection h with h1
                injection h1 with ha hb
                subst ha
                exact create_inv _ _ _ _ _ rfl
              · rw [if_neg h30] at h
                try dsimp only [] at h
                injection h with h1
                injection h1 with ha hb
                subst ha
                exact create_inv _ _ _ _ _ rfl
      | none =>
        try dsimp only [] at h
        by_cases hcon : bytes.getByte.1 &&& 32 = 32
        · rw [if_pos hcon] at h
          try dsimp only [] at h
          cases hi : fromDerChildrenIndefinite fuel opts bytes3 R3 depth with
          | error e => rw [hi] at h; simp at h
          | ok t =>
          obtain ⟨children, bytes4, rem4⟩ := t
          rw [hi] at h
          try dsimp only [] at h
          injection h with h1
          injection h1 with ha hb
          subst ha
          exact create_inv _ _ _ _ _ (ihI _ _ _ _ _ _ _ hi)
        · rw [if_neg hcon] at h
          try dsimp only [] at h
          by_cases hst : opts.strict = true
          · rw [if_pos hst] at h
            try dsimp only [] at h
            simp at h
          · rw [if_neg hst] at h
            try dsimp only [] at h
            by_cases h30 : bytes.getByte.1 &&& 31 = 30
            · rw [if_pos h30] at h
              cases hbmp : bmpReadLoop bytes3 R3 R3 with
              | error e => rw [hbmp] at h; simp at h
              | ok t =>
              obtain ⟨sv, bytes4, rem4⟩ := t
              rw [hbmp] at h
              try dsimp only [] at h
              injection h with h1
              injection h1 with ha hb
              subst ha
              exact create_inv _ _ _ _ _ rfl
            · rw [if_neg h30] at h
              try dsimp only [] at h
              injection h with h1
              injection h1 with ha hb
              subst ha
              exact create_inv _ _ _ _ _ rfl
    · intro opts bytes length remaining depth l b2 r2 h
      rw [fromDerChildrenDefinite] at h
      repeat' (first | split at h | dsimp only [] at h)
      all_goals first
        | (simp at h
           done)
        | (injection h with h1
           injection h1 with ha hb
           subst ha
           first
             | rfl
             | (simp only [invList, Bool.and_eq_true]
                constructor <;> solve_by_elim [ihA, ihD]))
    · intro opts bytes remaining depth l b2 r2 h
      rw [fromDerChildrenIndefinite] at h
      repeat' (first | split at h | dsimp only [] at h)
      all_goals first
        | (simp at h
           done)
        | (injection h with h1
           injection h1 with ha hb
           subst ha
           first
             | rfl
             | (simp only [invList, Bool.and_eq_true]
                constructor <;> solve_by_elim [ihA, ihI]))

/-- C9: every node produced by the public operations satisfies the invariant
`composed == (constructed || value is a list of child nodes)`, recursively:
`create` establishes it at the node it builds (given invariant-satisfying
children), `copy` preserves it under any options, and every tree returned by
`fromDer` satisfies it at every node. -/
theorem c9_public_ops_invariant :
    (∀ (tagClass ty : Nat) (constructed : Bool) (value : List Nat ⊕ List Asn1)
       (options : Option (List Nat)), invValue value = true →
       invNode (create tagClass ty constructed value options) = true) ∧
    (∀ (opts : Option Bool) (a : Asn1), invNode a = true →
       invNode (copyNode opts a) = true) ∧
    (∀ (fuel : Nat) (data : List Nat) (strict parseAllBytes decodeBitStrings : Bool)
       (a : Asn1), fromDer fuel data strict parseAllBytes decodeBitStrings = .ok a →
       invNode a = true) := by
  refine ⟨fun tc ty c v o h => create_inv tc ty c v o h,
          fun opts a h => copyNode_inv opts a h, ?_⟩
  intro fuel data strict parseAllBytes decodeBitStrings a h
  rw [fromDer] at h
  repeat' (first | split at h | dsimp only [] at h)
  all_goals first
    | (simp at h
       done)
    | (injection h with h1
       subst h1
       solve_by_elim [(parserInv fuel).1])

/-- Witness for C9: a `create`d SEQUENCE with no children, a `copy` of an
INTEGER node, and the parse of the DER bytes of INTEGER 5. -/
theorem c9_public_ops_invariant_witness :
    invNode (create 0 16 true (.inr []) none) = true ∧
    invNode (copyNode none (create 0 2 false (.inl [5]) none)) = true ∧
    invNode (create 0 2 false (.inl [5]) none) = true :=
  ⟨c9_public_ops_invariant.1 0 16 true (.inr []) none rfl,
   c9_public_ops_invariant.2.1 none (create 0 2 false (.inl [5]) none) rfl,
   c9_public_ops_invariant.2.2 10 [2, 1, 5] true true true
     (create 0 2 false (.inl [5]) none) rfl⟩

/-- When the speculative BIT STRING re-decode abandons the attempt
(result `none`), the buffer's read position and the remaining count are
restored to their values from before the attempt. -/
theorem dbsa_restore
    (sub : ByteStringBuffer → Int → Except JsError (Asn1 × ByteStringBuffer))
    (bytes : ByteStringBuffer) (remaining length : Int) (b2 : ByteStringBuffer) (r2 : Int)
    (h : decodeBitStringAttempt sub 3 bytes remaining length = .ok (none, b2, r2)) :
    b2 = bytes ∧ r2 = remaining := by
  rw [decodeBitStringAttempt] at h
  rw [if_pos (rfl : (3 : Nat) = 3)] at h
  cases hcb : checkBufferLength bytes remaining 1 with
  | error e => rw [hcb] at h; simp at h
  | ok u =>
  rw [hcb] at h
  try dsimp only [] at h
  by_cases hu : bytes.getByte.1 = 0
  · rw [if_pos hu] at h
    cases hs : sub bytes.getByte.2 (remaining - 1) with
    | error e =>
      rw [hs] at h
      try dsimp only [] at h
      injection h with h1
      injection h1 with hm hrest
      injection hrest with hb hr
      refine ⟨?_, hr.symm⟩
      rw [← hb]
      rfl
    | ok t =>
      obtain ⟨comp1, bytes3⟩ := t
      rw [hs] at h
      try dsimp only [] at h
      rw [if_pos (rfl : (3 : Nat) = 3)] at h
      by_cases hcond : (bytes.getByte.2.length - bytes3.length + 1 : Int) = length ∧
          (comp1.tagClass = 0 ∨ comp1.tagClass = 128)
      · rw [if_pos hcond] at h
        try dsimp only [] at h
        simp at h
      · rw [if_neg hcond] at h
        try dsimp only [] at h
        injection h with h1
        injection h1 with hm hrest
        injection hrest with hb hr
        refine ⟨?_, hr.symm⟩
        rw [← hb]
        rfl
  · rw [if_neg hu] at h
    try dsimp only [] at h
    injection h with h1
    injection h1 with hm hrest
    injection hrest with hb hr
    refine ⟨?_, hr.symm⟩
    rw [← hb]
    rfl

/-- C4: the speculative BIT STRING re-decode swallows every failure.  With at
least one byte remaining (the declared-length check guarantees this at the
call site): (1) the attempt never propagates an error; (2) whenever it is
abandoned the buffer and remaining count are restored to their pre-attempt
values; abandonment happens (3) on a nonzero unused-bits byte, (4) when the
nested strict parse fails (the error is caught and discarded), and (5) when
the nested parse does not consume exactly the declared length or the nested
node's tag class is neither UNIVERSAL (0) nor CONTEXT_SPECIFIC (0x80); and
(6) whenever the parse with `decodeBitStrings` enabled returns a node with a
primitive (raw byte-string) value, it returns exactly what the parse with the
heuristic disabled returns — the node keeps its raw primitive value. -/
theorem c4_bit_string_redecode_swallows :
    (∀ (sub : ByteStringBuffer → Int → Except JsError (Asn1 × ByteStringBuffer))
       (bytes : ByteStringBuffer) (remaining length : Int) (e : JsError),
       1 ≤ remaining →
       decodeBitStringAttempt sub 3 bytes remaining length ≠ .error e) ∧
    (∀ (sub : ByteStringBuffer → Int → Except JsError (Asn1 × ByteStringBuffer))
       (bytes : ByteStringBuffer) (remaining length : Int)
       (b2 : ByteStringBuffer) (r2 : Int),
       decodeBitStringAttempt sub 3 bytes remaining length = .ok (none, b2, r2) →
       b2 = bytes ∧ r2 = remaining) ∧
    (∀ (sub : ByteStringBuffer → Int → Except JsError (Asn1 × ByteStringBuffer))
       (bytes : ByteStringBuffer) (remaining length : Int),
       1 ≤ remaining → bytes.getByte.1 ≠ 0 →
       decodeBitStringAttempt sub 3 bytes remaining length = .ok (none, bytes, remaining)) ∧
    (∀ (sub : ByteStringBuffer → Int → Except JsError (Asn1 × ByteStringBuffer))
       (bytes : ByteStringBuffer) (remaining length : Int) (e : JsError),
       1 ≤ remaining → bytes.getByte.1 = 0 →
       sub bytes.getByte.2 (remaining - 1) = .error e →
       decodeBitStringAttempt sub 3 bytes remaining length = .ok (none, bytes, remaining)) ∧
    (∀ (sub : ByteStringBuffer → Int → Except JsError (Asn1 × ByteStringBuffer))
       (bytes : ByteStringBuffer) (remaining length : Int)
       (comp1 : Asn1) (bytes2 : ByteStringBuffer),
       1 ≤ remaining → bytes.getByte.1 = 0 →
       sub bytes.getByte.2 (remaining - 1) = .ok (comp1, bytes2) →
       ((bytes.getByte.2.length - bytes2.length + 1 : Int) ≠ length ∨
        (comp1.tagClass ≠ 0 ∧ comp1.tagClass ≠ 128)) →
       decodeBitStringAttempt sub 3 bytes remaining length = .ok (none, bytes, remaining)) ∧
    (∀ (fuel : Nat) (strict : Bool) (bytes : ByteStringBuffer) (remaining : Int) (depth : Nat)
       (node : Asn1) (b2 : ByteStringBuffer),
       fromDerAux fuel ⟨strict, true⟩ bytes remaining depth = .ok (node, b2) →
       isNodes node.value = false →
       fromDerAux fuel ⟨strict, false⟩ bytes remaining depth = .ok (node, b2)) := by
  have hcbok : ∀ (bytes : ByteStringBuffer) (remaining : Int), 1 ≤ remaining →
      checkBufferLength bytes remaining 1 = Except.ok () := by
    intro bytes remaining h1
    rw [checkBufferLength, if_neg (by omega)]
  refine ⟨?_, ?_, ?_, ?_, ?_, ?_⟩
  · intro sub bytes remaining length e h1 heq
    rw [decodeBitStringAttempt] at heq
    rw [if_pos (rfl : (3 : Nat) = 3)] at heq
    rw [hcbok bytes remaining h1] at heq
    try dsimp only [] at heq
    by_cases hu : bytes.getByte.1 = 0
    · rw [if_pos hu] at heq
      cases hs : sub bytes.getByte.2 (remaining - 1) with
      | error e2 =>
        rw [hs] at heq
        try dsimp only [] at heq
        simp at heq
      | ok t =>
        obtain ⟨comp1, bytes3⟩ := t
        rw [hs] at heq
        try dsimp only [] at heq
        rw [if_pos (rfl : (3 : Nat) = 3)] at heq
        by_cases hcond : (bytes.getByte.2.length - bytes3.length + 1 : Int) = length ∧
            (comp1.tagClass = 0 ∨ comp1.tagClass = 128)
        · rw [if_pos hcond] at heq
          try dsimp only [] at heq
          simp at heq
        · rw [if_neg hcond] at heq
          try dsimp only [] at heq
          simp at heq
    · rw [if_neg hu] at heq
      try dsimp only [] at heq
      simp at heq
  · exact fun sub bytes remaining length b2 r2 h =>
      dbsa_restore sub bytes remaining length b2 r2 h
  · intro sub bytes remaining length h1 hu
    rw [decodeBitStringAttempt]
    rw [if_pos (rfl : (3 : Nat) = 3)]
    rw [hcbok bytes remaining h1]
    try dsimp only []
    rw [if_neg hu]
    rfl
  · intro sub bytes remaining length e h1 hu hs
    rw [decodeBitStringAttempt]
    rw [if_pos (rfl : (3 : Nat) = 3)]
    rw [hcbok bytes remaining h1]
    try dsimp only []
    rw [if_pos hu]
    rw [hs]
    rfl
  · intro sub bytes remaining length comp1 bytes2 h1 hu hs hcause
    have hcnot : ¬((bytes.getByte.2.length - bytes2.length + 1 : Int) = length ∧
        (comp1.tagClass = 0 ∨ comp1.tagClass = 128)) := by
      rcases hcause with hne | ⟨h0, h8⟩
      · exact fun hc => hne hc.1
      · exact fun hc => hc.2.elim h0 h8
    rw [decodeBitStringAttempt]
    rw [if_pos (rfl : (3 : Nat) = 3)]
    rw [hcbok bytes remaining h1]
    try dsimp only []
    rw [if_pos hu]
    rw [hs]
    try dsimp only []
    rw [if_pos (rfl : (3 : Nat) = 3)]
    rw [if_neg hcnot]
    rfl
  · intro fuel strict bytes remaining depth node b2 h hprim
    have hno : ∀ (c : Prop), ¬(false = true ∧ c) := fun c hc => Bool.false_ne_true hc.1
    cases fuel with
    | zero => simp [fromDerAux] at h
    | succ fuel =>
    rw [fromDerAux] at h ⊢
    try dsimp only [] at h ⊢
    cases hc : checkBufferLength bytes remaining 2 with
    | error e => rw [hc] at h; simp at h
    | ok u =>
    rw [hc] at h
    try dsimp only [] at h ⊢
    cases hl : getValueLength bytes.getByte.2 (remaining - 1) with
    | error e => rw [hl] at h; simp at h
    | ok p =>
    obtain ⟨length0, bytes3⟩ := p
    rw [hl] at h
    try dsimp only [] at h ⊢
    set R3 := remaining - 1 - (bytes.getByte.2.length - bytes3.length) with hR3
    cases length0 with
    | some l =>
      try dsimp only [] at h ⊢
      by_cases hlt : R3 < l
      · rw [if_pos hlt] at h ⊢
        by_cases hst : strict = true
        · rw [if_pos hst] at h
          try dsimp only [] at h
          simp at h
        · rw [if_neg hst] at h ⊢
          try dsimp only [] at h ⊢
          by_cases hcon : bytes.getByte.1 &&& 32 = 32
          · rw [if_pos hcon] at h ⊢
            try dsimp only [] at h ⊢
            cases hd : fromDerChildrenDefinite fuel ⟨strict, true⟩ bytes3 R3 R3 depth with
            | error e => rw [hd] at h; simp at h
            | ok t =>
            obtain ⟨children, bytes4, rem4⟩ := t
            rw [hd] at h
            try dsimp only [] at h
            injection h with h1
            injection h1 with ha hb
            rw [← ha] at hprim
            simp [create, Asn1.value, isNodes] at hprim
          · rw [if_neg hcon] at h ⊢
            try dsimp only [] at h ⊢
            rw [if_neg (hno _)]
            by_cases hP : bytes.getByte.1 &&& 192 = 0 ∧ bytes.getByte.1 &&& 31 = 3 ∧ 1 < R3
            · rw [if_pos (And.intro rfl hP)] at h
              rw [if_pos (And.intro hP.1 hP.2.1)] at h ⊢
              cases hat : decodeBitStringAttempt
                  (fun b r => fromDerAux fuel ⟨true, true⟩ b r (depth + 1))
                  (bytes.getByte.1 &&& 31) bytes3 R3 R3 with
              | error e => rw [hat] at h; simp at h
              | ok t =>
              obtain ⟨attempt, bytes4, rem4⟩ := t
              rw [hat] at h
              try dsimp only [] at h
              cases attempt with
              | some children =>
                simp only [Option.map_some'] at h
                try dsimp only [] at h
                injection h with h1
                injection h1 with ha hb
                rw [← ha] at hprim
                simp [create, Asn1.value, isNodes] at hprim
              | none =>
                simp only [Option.map_none'] at h
                try dsimp only [] at h
                rw [hP.2.1] at hat
                obtain ⟨hb4, hr4⟩ := dbsa_restore _ bytes3 R3 R3 bytes4 rem4 hat
                subst hb4
                subst hr4
                exact h
            · rw [if_neg (fun hc => hP hc.2)] at h
              try dsimp only [] at h
              exact h
      · rw [if_neg hlt] at h ⊢
        try dsimp only [] at h ⊢
        by_cases hcon : bytes.getByte.1 &&& 32 = 32
        · rw [if_pos hcon] at h ⊢
          try dsimp only [] at h ⊢
          cases hd : fromDerChildrenDefinite fuel ⟨strict, true⟩ bytes3 l R3 depth with
          | error e => rw [hd] at h; simp at h
          | ok t =>
          obtain ⟨children, bytes4, rem4⟩ := t
          rw [hd] at h
          try dsimp only [] at h
          injection h with h1
          injection h1 with ha hb
          rw [← ha] at hprim
          simp [create, Asn1.value, isNodes] at hprim
        · rw [if_neg hcon] at h ⊢
          try dsimp only [] at h ⊢
          rw [if_neg (hno _)]
          by_cases hP : bytes.getByte.1 &&& 192 = 0 ∧ bytes.getByte.1 &&& 31 = 3 ∧ 1 < l
          · rw [if_pos (And.intro rfl hP)] at h
            rw [if_pos (And.intro hP.1 hP.2.1)] at h ⊢
            cases hat : decodeBitStringAttempt
                (fun b r => fromDerAux fuel ⟨true, true⟩ b r (depth + 1))
                (bytes.getByte.1 &&& 31) bytes3 R3 l with
            | error e => rw [hat] at h; simp at h
            | ok t =>
            obtain ⟨attempt, bytes4, rem4⟩ := t
            rw [hat] at h
            try dsimp only [] at h
            cases attempt with
            | some children =>
              simp only [Option.map_some'] at h
              try dsimp only [] at h
              injection h with h1
              injection h1 with ha hb
              rw [← ha] at hprim
              simp [create, Asn1.value, isNodes] at hprim
            | none =>
              simp only [Option.map_none'] at h
              try dsimp only [] at h
              rw [hP.2.1] at hat
              obtain ⟨hb4, hr4⟩ := dbsa_restore _ bytes3 R3 l bytes4 rem4 hat
              subst hb4
              subst hr4
              exact h
          · rw [if_neg (fun hc => hP hc.2)] at h
            try dsimp only [] at h
            exact h
    | none =>
      try dsimp only [] at h ⊢
      by_cases hcon : bytes.getByte.1 &&& 32 = 32
      · rw [if_pos hcon] at h ⊢
        try dsimp only [] at h ⊢
        cases hi : fromDerChildrenIndefinite fuel ⟨strict, true⟩ bytes3 R3 depth with
        | error e => rw [hi] at h; simp at h
        | ok t =>
        obtain ⟨children, bytes4, rem4⟩ := t
        rw [hi] at h
        try dsimp only [] at h
        injection h with h1
        injection h1 with ha hb
        rw [← ha] at hprim
        simp [create, Asn1.value, isNodes] at hprim
      · rw [if_neg hcon] at h ⊢
        try dsimp only [] at h ⊢
        by_cases hst : strict = true
        · rw [if_pos hst] at h
          try dsimp only [] at h
          simp at h
        · rw [if_neg hst] at h ⊢
          try dsimp only [] at h ⊢
          exact h

/-- Witness for C4: the error-producing nested parse, the restored buffer for
each abandonment cause, and the parse of `03 02 00 00` (declared length 2,
inner parse fails, swallowed) keeping the raw primitive value. -/
theorem c4_bit_string_redecode_swallows_witness :
    decodeBitStringAttempt (fun _ _ => .error .nonConstructedIndefinite) 3
      (createBufferOf [0, 0]) 2 2 ≠ .error JsError.nonConstructedIndefinite ∧
    ((createBufferOf [0, 0]) = createBufferOf [0, 0] ∧ (2 : Int) = 2) ∧
    decodeBitStringAttempt (fun _ _ => .error .nonConstructedIndefinite) 3
      (createBufferOf [1, 0]) 2 2 = .ok (none, createBufferOf [1, 0], 2) ∧
    decodeBitStringAttempt (fun _ _ => .error .nonConstructedIndefinite) 3
      (createBufferOf [0, 0]) 2 2 = .ok (none, createBufferOf [0, 0], 2) ∧
    decodeBitStringAttempt (fun b _ => .ok (create 0 5 false (.inl []) none, b)) 3
      (createBufferOf [0, 0]) 2 2 = .ok (none, createBufferOf [0, 0], 2) ∧
    fromDerAux 10 ⟨true, false⟩ (createBufferOf [3, 2, 0, 0]) 4 0 =
      .ok (create 0 3 false (.inl [0, 0]) (some [0, 0]), ⟨[3, 2, 0, 0], 4⟩) :=
  ⟨c4_bit_string_redecode_swallows.1 (fun _ _ => .error .nonConstructedIndefinite)
     (createBufferOf [0, 0]) 2 2 .nonConstructedIndefinite (by decide),
   c4_bit_string_redecode_swallows.2.1 (fun _ _ => .error .nonConstructedIndefinite)
     (createBufferOf [0, 0]) 2 2 (createBufferOf [0, 0]) 2 rfl,
   c4_bit_string_redecode_swallows.2.2.1 (fun _ _ => .error .nonConstructedIndefinite)
     (createBufferOf [1, 0]) 2 2 (by decide) (by decide),
   c4_bit_string_redecode_swallows.2.2.2.1 (fun _ _ => .error .nonConstructedIndefinite)
     (createBufferOf [0, 0]) 2 2 .nonConstructedIndefinite (by decide) rfl rfl,
   c4_bit_string_redecode_swallows.2.2.2.2.1
     (fun b _ => .ok (create 0 5 false (.inl []) none, b))
     (createBufferOf [0, 0]) 2 2 (create 0 5 false (.inl []) none)
     (createBufferOf [0, 0]).getByte.2 (by decide) rfl rfl (Or.inl (by decide)),
   c4_bit_string_redecode_swallows.2.2.2.2.2 10 true (createBufferOf [3, 2, 0, 0]) 4 0
     (create 0 3 false (.inl [0, 0]) (some [0, 0])) ⟨[3, 2, 0, 0], 4⟩ rfl rfl⟩

/-! ## Round-trip support lemmas -/

lemma and255_eq_mod (L : Nat) : L &&& 255 = L % 256 := Nat.and_pow_two_sub_one_eq_mod L 8

lemma and127_eq_mod (L : Nat) : L &&& 127 = L % 128 := Nat.and_pow_two_sub_one_eq_mod L 7

lemma and128_of_lt (L : Nat) (h : L < 128) : L &&& 128 = 0 := by
  apply Nat.eq_of_testBit_eq
  intro i
  simp only [Nat.testBit_and, Nat.zero_testBit, Bool.and_eq_false_iff]
  by_cases h7 : i = 7
  · subst h7
    left
    exact Nat.testBit_lt_two_pow h
  · right
    have h128 : (128 : Nat) = 2 ^ 7 := by norm_num
    rw [h128, Nat.testBit_two_pow]
    simp [Ne.symm h7]

/-- Fields of the DER tag byte `tagClass ||| type` (and its variant with the
constructed bit set) recovered by the parser's masks. -/
lemma tag_fields (tc ty : Nat)
    (htc : tc = 0 ∨ tc = 64 ∨ tc = 128 ∨ tc = 192) (hty : ty < 32) :
    (tc ||| ty) &&& 192 = tc ∧ (tc ||| ty) &&& 31 = ty ∧
    ¬((tc ||| ty) &&& 32 = 32) ∧ tc ||| ty < 256 ∧
    ((tc ||| ty) ||| 32) &&& 192 = tc ∧ ((tc ||| ty) ||| 32) &&& 31 = ty ∧
    ((tc ||| ty) ||| 32) &&& 32 = 32 ∧ (tc ||| ty) ||| 32 < 256 := by
  rcases htc with rfl | rfl | rfl | rfl <;> (interval_cases ty <;> decide)

lemma getD_of_drop (data : List Nat) (read : Nat) (x : Nat) (xs : List Nat)
    (h : data.drop read = x :: xs) : data.getD read 0 = x := by
  have h0 : data[read]? = some x := by
    have := List.getElem?_drop data read 0
    rw [h] at this
    simpa using this.symm
  simp [List.getD_eq_getElem?_getD, h0]

lemma drop_succ_of_drop (data : List Nat) (read : Nat) (x : Nat) (xs : List Nat)
    (h : data.drop read = x :: xs) : data.drop (read + 1) = xs := by
  have h1 : data.drop (read + 1) = (data.drop read).drop 1 := by
    rw [List.drop_drop]
  rw [h1, h]
  rfl

lemma drop_shift (data xs rest : List Nat) (read : Nat)
    (h : data.drop read = xs ++ rest) : data.drop (read + xs.length) = rest := by
  have h1 : data.drop (read + xs.length) = (data.drop read).drop xs.length := by
    rw [List.drop_drop]
  rw [h1, h, List.drop_left]

lemma len_of_drop (data xs rest : List Nat) (read : Nat)
    (h : data.drop read = xs ++ rest) (hne : 1 ≤ xs.length) :
    data.length = read + xs.length + rest.length := by
  have h2 := congrArg List.length h
  simp only [List.length_drop, List.length_append] at h2
  omega

lemma lenDigitsLE_eq (L : Nat) :
    lenDigitsLE L = if L / 256 = 0 then [L % 256] else L % 256 :: lenDigitsLE (L / 256) := by
  rw [lenDigitsLE]
  have ha : L &&& 255 = L % 256 := and255_eq_mod L
  have hs : L >>> 8 = L / 256 := by rw [Nat.shiftRight_eq_div_pow]
  simp only [ha, hs]
  by_cases h0 : 0 < L / 256
  · rw [dif_pos h0, if_neg (by omega)]
  · rw [dif_neg h0, if_pos (by omega)]

lemma lenDigitsLE_1 (L : Nat) (h : L < 256) : lenDigitsLE L = [L] := by
  rw [lenDigitsLE_eq, if_pos (by omega)]
  congr 1
  omega

lemma lenDigitsLE_2 (L : Nat) (h1 : 256 ≤ L) (h2 : L < 65536) :
    lenDigitsLE L = [L % 256, L / 256] := by
  rw [lenDigitsLE_eq, if_neg (by omega), lenDigitsLE_1 (L / 256) (by omega)]

lemma lenDigitsLE_3 (L : Nat) (h1 : 65536 ≤ L) (h2 : L < 16777216) :
    lenDigitsLE L = [L % 256, L / 256 % 256, L / 65536] := by
  rw [lenDigitsLE_eq, if_neg (by omega), lenDigitsLE_2 (L / 256) (by omega) (by omega)]
  rw [Nat.div_div_eq_div_mul]

lemma lenDigitsLE_4 (L : Nat) (h1 : 16777216 ≤ L) (h2 : L < 4294967296) :
    lenDigitsLE L = [L % 256, L / 256 % 256, L / 65536 % 256, L / 16777216] := by
  rw [lenDigitsLE_eq, if_neg (by omega), lenDigitsLE_3 (L / 256) (by omega) (by omega)]
  rw [Nat.div_div_eq_div_mul, Nat.div_div_eq_div_mul]

lemma derEncodeLen_short (L : Nat) (h : L ≤ 127) : derEncodeLen L = [L] := by
  rw [derEncodeLen, if_pos h, and127_eq_mod]
  congr 1
  omega

lemma derEncodeLen_long1 (L : Nat) (h1 : 127 < L) (h2 : L < 256) :
    derEncodeLen L = [129, L] := by
  rw [derEncodeLen, if_neg (by omega), lenDigitsLE_1 L h2]
  simp only [List.length_cons, List.length_nil, List.reverse_cons, List.reverse_nil,
    List.nil_append, List.map_cons, List.map_nil]
  rw [show (0 + 1 ||| 128) % 65536 = 129 from by decide]
  rw [Nat.mod_eq_of_lt (by omega : L < 65536)]

lemma derEncodeLen_long2 (L : Nat) (h1 : 256 ≤ L) (h2 : L < 65536) :
    derEncodeLen L = [130, L / 256, L % 256] := by
  rw [derEncodeLen, if_neg (by omega), lenDigitsLE_2 L h1 h2]
  simp only [List.length_cons, List.length_nil, List.reverse_cons, List.reverse_nil,
    List.nil_append, List.map_append, List.map_cons, List.map_nil, List.append_assoc,
    List.cons_append]
  rw [show (0 + 1 + 1 ||| 128) % 65536 = 130 from by decide]
  rw [Nat.mod_eq_of_lt (by omega : L / 256 < 65536),
    Nat.mod_eq_of_lt (by omega : L % 256 < 65536)]

lemma derEncodeLen_long3 (L : Nat) (h1 : 65536 ≤ L) (h2 : L < 16777216) :
    derEncodeLen L = [131, L / 65536, L / 256 % 256, L % 256] := by
  rw [derEncodeLen, if_neg (by omega), lenDigitsLE_3 L h1 h2]
  simp only [List.length_cons, List.length_nil, List.reverse_cons, List.reverse_nil,
    List.nil_append, List.map_append, List.map_cons, List.map_nil, List.append_assoc,
    List.cons_append]
  rw [show (0 + 1 + 1 + 1 ||| 128) % 65536 = 131 from by decide]
  rw [Nat.mod_eq_of_lt (by omega : L / 65536 < 65536),
    Nat.mod_eq_of_lt (by omega : L / 256 % 256 < 65536),
    Nat.mod_eq_of_lt (by omega : L % 256 < 65536)]

lemma derEncodeLen_long4 (L : Nat) (h1 : 16777216 ≤ L) (h2 : L < 4294967296) :
    derEncodeLen L = [132, L / 16777216, L / 65536 % 256, L / 256 % 256, L % 256] := by
  rw [derEncodeLen, if_neg (by omega), lenDigitsLE_4 L h1 h2]
  simp only [List.length_cons, List.length_nil, List.reverse_cons, List.reverse_nil,
    List.nil_append, List.map_append, List.map_cons, List.map_nil, List.append_assoc,
    List.cons_append]
  rw [show (0 + 1 + 1 + 1 + 1 ||| 128) % 65536 = 132 from by decide]
  rw [Nat.mod_eq_of_lt (by omega : L / 16777216 < 65536),
    Nat.mod_eq_of_lt (by omega : L / 65536 % 256 < 65536),
    Nat.mod_eq_of_lt (by omega : L / 256 % 256 < 65536),
    Nat.mod_eq_of_lt (by omega : L % 256 < 65536)]

/-- The parser's length reader recovers exactly the length emitted by
`toDer`'s length encoder, consuming exactly its bytes. -/
lemma parse_derEncodeLen (L : Nat) (data : List Nat) (read : Nat) (rest : List Nat)
    (remaining : Int) (hL : L < 2147483648)
    (h : data.drop read = derEncodeLen L ++ rest)
    (hrem : ((derEncodeLen L).length : Int) ≤ remaining) :
    getValueLength ⟨data, read⟩ remaining =
      .ok (some (L : Int), ⟨data, read + (derEncodeLen L).length⟩) := by
  by_cases c1 : L ≤ 127
  · have hE := derEncodeLen_short L c1
    rw [hE] at h hrem ⊢
    have hb : data.getD read 0 = L := getD_of_drop data read L rest (by simpa using h)
    rw [getValueLength]
    simp only [ByteStringBuffer.getByte, ByteStringBuffer.charCodeAt, hb]
    rw [if_neg (show ¬(L = 128) from by omega)]
    rw [if_pos (and128_of_lt L (by omega))]
    try dsimp only []
    rw [if_neg (show ¬((L : Int) < 0) from by omega)]
    rfl
  · by_cases c2 : L < 256
    · have hE := derEncodeLen_long1 L (by omega) c2
      rw [hE] at h hrem ⊢
      have h0 : data.drop read = 129 :: ([L] ++ rest) := by simpa using h
      have hb : data.getD read 0 = 129 := getD_of_drop data read 129 _ h0
      have h1 : data.drop (read + 1) = L :: rest := by
        simpa using drop_succ_of_drop data read 129 _ h0
      have hb1 : data.getD (read + 1) 0 = L := getD_of_drop data (read + 1) L rest h1
      simp only [List.length_cons, List.length_nil] at hrem
      rw [getValueLength]
      simp only [ByteStringBuffer.getByte, ByteStringBuffer.charCodeAt, hb]
      rw [if_neg (by norm_num : ¬((129 : Nat) = 128))]
      rw [if_neg (by decide : ¬((129 : Nat) &&& 128 = 0))]
      try dsimp only []
      rw [show (129 : Nat) &&& 127 = 1 from by decide]
      rw [checkBufferLength, if_neg (by push_cast at hrem ⊢; omega)]
      try dsimp only []
      rw [show (1 : Nat) <<< 3 = 8 from by decide]
      rw [getInt_ok _ 8 (by decide)]
      try dsimp only []
      rw [getIntLoop_one data (read + 1) 0 (by norm_num) (by norm_num), hb1]
      try dsimp only []
      rw [show (256 : Int) * 0 + (L : Int) = (L : Int) from by ring]
      rw [if_neg (show ¬((L : Int) < 0) from by omega)]
      rfl
    · by_cases c3 : L < 65536
      · have hE := derEncodeLen_long2 L (by omega) c3
        rw [hE] at h hrem ⊢
        have h0 : data.drop read = 130 :: ([L / 256, L % 256] ++ rest) := by simpa using h
        have hb : data.getD read 0 = 130 := getD_of_drop data read 130 _ h0
        have h1 : data.drop (read + 1) = L / 256 :: ([L % 256] ++ rest) := by
          simpa using drop_succ_of_drop data read 130 _ h0
        have hb1 : data.getD (read + 1) 0 = L / 256 := getD_of_drop data (read + 1) _ _ h1
        have h2 : data.drop (read + 1 + 1) = L % 256 :: rest := by
          simpa using drop_succ_of_drop data (read + 1) _ _ h1
        have hb2 : data.getD (read + 2) 0 = L % 256 := by
          have := getD_of_drop data (read + 1 + 1) _ _ h2
          simpa using this
        simp only [List.length_cons, List.length_nil] at hrem
        rw [getValueLength]
        simp only [ByteStringBuffer.getByte, ByteStringBuffer.charCodeAt, hb]
        rw [if_neg (by norm_num : ¬((130 : Nat) = 128))]
        rw [if_neg (by decide : ¬((130 : Nat) &&& 128 = 0))]
        try dsimp only []
        rw [show (130 : Nat) &&& 127 = 2 from by decide]
        rw [checkBufferLength, if_neg (by push_cast at hrem ⊢; omega)]
        try dsimp only []
        rw [show (2 : Nat) <<< 3 = 16 from by decide]
        rw [getInt_ok _ 16 (by decide)]
        try dsimp only []
        rw [getIntLoop_two data (read + 1) (L / 256) (L % 256) hb1 hb2 (by omega)]
        try dsimp only []
        rw [show (256 * (L / 256) + L % 256 : Nat) = L from by omega]
        rw [if_neg (show ¬((L : Int) < 0) from by omega)]
        rfl
      · by_cases c4 : L < 16777216
        · have hE := derEncodeLen_long3 L (by omega) c4
          rw [hE] at h hrem ⊢
          have h0 : data.drop read = 131 :: ([L / 65536, L / 256 % 256, L % 256] ++ rest) := by
            simpa using h
          have hb : data.getD read 0 = 131 := getD_of_drop data read 131 _ h0
          have h1 : data.drop (read + 1) = L / 65536 :: ([L / 256 % 256, L % 256] ++ rest) := by
            simpa using drop_succ_of_drop data read 131 _ h0
          have hb1 : data.getD (read + 1) 0 = L / 65536 := getD_of_drop data (read + 1) _ _ h1
          have h2 : data.drop (read + 1 + 1) = L / 256 % 256 :: ([L % 256] ++ rest) := by
            simpa using drop_succ_of_drop data (read + 1) _ _ h1
          have hb2 : data.getD (read + 2) 0 = L / 256 % 256 := by
            have := getD_of_drop data (read + 1 + 1) _ _ h2
            simpa using this
          have h3 : data.drop (read + 1 + 1 + 1) = L % 256 :: rest := by
            simpa using drop_succ_of_drop data (read + 1 + 1) _ _ h2
          have hb3 : data.getD (read + 3) 0 = L % 256 := by
            have := getD_of_drop data (read + 1 + 1 + 1) _ _ h3
            simpa using this
          simp only [List.length_cons, List.length_nil] at hrem
          rw [getValueLength]
          simp only [ByteStringBuffer.getByte, ByteStringBuffer.charCodeAt, hb]
          rw [if_neg (by norm_num : ¬((131 : Nat) = 128))]
          rw [if_neg (by decide : ¬((131 : Nat) &&& 128 = 0))]
          try dsimp only []
          rw [show (131 : Nat) &&& 127 = 3 from by decide]
          rw [checkBufferLength, if_neg (by push_cast at hrem ⊢; omega)]
          try dsimp only []
          rw [show (3 : Nat) <<< 3 = 24 from by decide]
          rw [getInt_ok _ 24 (by decide)]
          try dsimp only []
          rw [getIntLoop_three data (read + 1) (L / 65536) (L / 256 % 256) (L % 256)
            hb1 hb2 hb3 (by omega) (by omega)]
          try dsimp only []
          rw [show (65536 * (L / 65536) + 256 * (L / 256 % 256) + L % 256 : Nat) = L from by omega]
          rw [if_neg (show ¬((L : Int) < 0) from by omega)]
          rfl
        · have hE := derEncodeLen_long4 L (by omega) (by omega)
          rw [hE] at h hrem ⊢
          have h0 : data.drop read =
              132 :: ([L / 16777216, L / 65536 % 256, L / 256 % 256, L % 256] ++ rest) := by
            simpa using h
          have hb : data.getD read 0 = 132 := getD_of_drop data read 132 _ h0
          have h1 : data.drop (read + 1) =
              L / 16777216 :: ([L / 65536 % 256, L / 256 % 256, L % 256] ++ rest) := by
            simpa using drop_succ_of_drop data read 132 _ h0
          have hb1 : data.getD (read + 1) 0 = L / 16777216 :=
            getD_of_drop data (read + 1) _ _ h1
          have h2 : data.drop (read + 1 + 1) =
              L / 65536 % 256 :: ([L / 256 % 256, L % 256] ++ rest) := by
            simpa using drop_succ_of_drop data (read + 1) _ _ h1
          have hb2 : data.getD (read + 2) 0 = L / 65536 % 256 := by
            have := getD_of_drop data (read + 1 + 1) _ _ h2
            simpa using this
          have h3 : data.drop (read + 1 + 1 + 1) = L / 256 % 256 :: ([L % 256] ++ rest) := by
            simpa using drop_succ_of_drop data (read + 1 + 1) _ _ h2
          have hb3 : data.getD (read + 3) 0 = L / 256 % 256 := by
            have := getD_of_drop data (read + 1 + 1 + 1) _ _ h3
            simpa using this
          have h4 : data.drop (read + 1 + 1 + 1 + 1) = L % 256 :: rest := by
            simpa using drop_succ_of_drop data (read + 1 + 1 + 1) _ _ h3
          have hb4 : data.getD (read + 4) 0 = L % 256 := by
            have := getD_of_drop data (read + 1 + 1 + 1 + 1) _ _ h4
            simpa using this
          simp only [List.length_cons, List.length_nil] at hrem
          rw [getValueLength]
          simp only [ByteStringBuffer.getByte, ByteStringBuffer.charCodeAt, hb]
          rw [if_neg (by norm_num : ¬((132 : Nat) = 128))]
          rw [if_neg (by decide : ¬((132 : Nat) &&& 128 = 0))]
          try dsimp only []
          rw [show (132 : Nat) &&& 127 = 4 from by decide]
          rw [checkBufferLength, if_neg (by push_cast at hrem ⊢; omega)]
          try dsimp only []
          rw [show (4 : Nat) <<< 3 = 32 from by decide]
          rw [getInt_ok _ 32 (by decide)]
          try dsimp only []
          rw [getIntLoop_four data (read + 1) (L / 16777216) (L / 65536 % 256) (L / 256 % 256)
            (L % 256) hb1 hb2 hb3 hb4 (by omega) (by omega) (by omega) (by omega)]
          try dsimp only []
          rw [show (16777216 * (L / 16777216) + 65536 * (L / 65536 % 256) +
            256 * (L / 256 % 256) + L % 256 : Nat) = L from by omega]
          simp only [uint32ToInt32]
          rw [if_pos (by omega : L < 2147483648)]
          rw [if_neg (show ¬((L : Int) < 0) from by omega)]
          rfl

lemma getBytesInt_of_drop (data : List Nat) (read : Nat) (v rest : List Nat)
    (h : data.drop read = v ++ rest) :
    ByteStringBuffer.getBytesInt ⟨data, read⟩ ((v.length : Nat) : Int) =
      (v, ⟨data, read + v.length⟩) := by
  rw [ByteStringBuffer.getBytesInt]
  by_cases h0 : v.length = 0
  · rw [if_pos (by exact_mod_cast h0)]
    have hv : v = [] := List.length_eq_zero.mp h0
    subst hv
    simp
  · rw [if_neg (show ¬(((v.length : Nat) : Int) = 0) from by exact_mod_cast h0)]
    try dsimp only []
    have hdl := len_of_drop data v rest read h (by omega)
    have hmin : min ((⟨data, read⟩ : ByteStringBuffer).length) ((v.length : Nat) : Int) =
        ((v.length : Nat) : Int) := by
      simp only [ByteStringBuffer.length]
      push_cast
      omega
    rw [hmin, Int.toNat_natCast, h, List.take_left]

lemma bytesOpt_of_drop (data : List Nat) (read : Nat) (v rest : List Nat)
    (h : data.drop read = v ++ rest) :
    ByteStringBuffer.bytesOpt ⟨data, read⟩ (some ((v.length : Nat) : Int)) = v := by
  rw [ByteStringBuffer.bytesOpt]
  try dsimp only []
  rw [h, Int.toNat_natCast, List.take_left]

lemma bmpBytes_length (s : List Nat) : (bmpBytes s).length = 2 * s.length := by
  induction s with
  | nil => rfl
  | cons c rest ih => simp [bmpBytes, ih]; omega

lemma bmpReadLoop_of_bmpBytes : ∀ (s : List Nat) (data : List Nat) (read : Nat)
    (rest : List Nat) (remaining : Int),
    data.drop read = bmpBytes s ++ rest →
    s.all (· < 65536) = true →
    ((2 * s.length : Nat) : Int) ≤ remaining →
    bmpReadLoop ⟨data, read⟩ remaining ((2 * s.length : Nat) : Int) =
      .ok (s, ⟨data, read + 2 * s.length⟩, remaining - ((2 * s.length : Nat) : Int))
  | [], data, rd, rest, remaining, h, hall, hrem => by
    rw [bmpReadLoop]
    rw [dif_neg (by norm_num)]
    norm_num
  | c :: s, data, rd, rest, remaining, h, hall, hrem => by
    simp only [List.all_cons, Bool.and_eq_true, decide_eq_true_eq] at hall
    obtain ⟨hc, halls⟩ := hall
    have hhi : jsAnd255 (jsShr (c : Int) 8) = c / 256 := by
      rw [byte_of_shr_8]
      omega
    have hlo : jsAnd255 (c : Int) = c % 256 := by
      simp only [jsAnd255, jsToUint32]
      omega
    have h0 : data.drop rd = (c / 256) :: ((c % 256) :: (bmpBytes s ++ rest)) := by
      rw [h]
      simp only [bmpBytes, hhi, hlo, List.cons_append]
    have hb0 : data.getD rd 0 = c / 256 := getD_of_drop data rd _ _ h0
    have h1 : data.drop (rd + 1) = (c % 256) :: (bmpBytes s ++ rest) :=
      drop_succ_of_drop data rd _ _ h0
    have hb1 : data.getD (rd + 1) 0 = c % 256 := getD_of_drop data (rd + 1) _ _ h1
    have h2 : data.drop (rd + 2) = bmpBytes s ++ rest := by
      have := drop_succ_of_drop data (rd + 1) _ _ h1
      simpa using this
    have hlen : ((2 * (c :: s).length : Nat) : Int) = 2 * (s.length : Int) + 2 := by
      simp only [List.length_cons]
      push_cast
      omega
    rw [bmpReadLoop]
    rw [dif_pos (by simp only [List.length_cons]; push_cast; omega)]
    rw [checkBufferLength, if_neg (by
      simp only [List.length_cons] at hrem
      push_cast at hrem ⊢
      omega)]
    try dsimp only []
    rw [getInt16_bytes ⟨data, rd⟩ (c / 256) (c % 256) hb0 hb1 (by omega) (by omega)]
    try dsimp only []
    have harg : ((2 * (c :: s).length : Nat) : Int) - 2 = ((2 * s.length : Nat) : Int) := by
      simp only [List.length_cons]
      push_cast
      omega
    rw [harg]
    rw [bmpReadLoop_of_bmpBytes s data (rd + 2) rest (remaining - 2) h2 halls
      (by simp only [List.length_cons] at hrem; push_cast at hrem ⊢; omega)]
    try dsimp only []
    have hchar : jsFromCharCode ((256 * (c / 256) + c % 256 : Nat) : Int) = c := by
      simp only [jsFromCharCode]
      omega
    rw [hchar]
    have hr2 : rd + 2 + 2 * s.length = rd + 2 * (c :: s).length := by
      simp only [List.length_cons]
      omega
    have hrem2 : remaining - 2 - ((2 * s.length : Nat) : Int) =
        remaining - ((2 * (c :: s).length : Nat) : Int) := by
      simp only [List.length_cons]
      push_cast
      omega
    rw [hr2, hrem2]

mutual

/-- Every node structurally equals its `copy`. -/
theorem equalsNode_copy (opts : Option Bool) : ∀ a, equalsNode a (copyNode opts a) = true
  | .mk tc ty c comp v bits orig => by
    simp only [copyNode, equalsNode, beq_self_eq_true, Bool.true_and]
    exact equalsValue_copy opts v

/-- See `equalsNode_copy`. -/
theorem equalsValue_copy (opts : Option Bool) : ∀ v, equalsValue v (copyValue opts v) = true
  | .inl s => by simp [copyValue, equalsValue]
  | .inr l => equalsList_copy opts l

/-- See `equalsNode_copy`. -/
theorem equalsList_copy (opts : Option Bool) : ∀ l, equalsList l (copyList opts l) = true
  | [] => rfl
  | a :: rest => by
    simp only [copyList, equalsList, Bool.and_eq_true]
    exact ⟨equalsNode_copy opts a, equalsList_copy opts rest⟩

end

/-- A nonzero unused-bits byte abandons the speculative BIT STRING re-decode
with the original buffer state. -/
lemma dbsa_abandon_nonzero
    (sub : ByteStringBuffer → Int → Except JsError (Asn1 × ByteStringBuffer))
    (bytes : ByteStringBuffer) (remaining length : Int)
    (h1 : 1 ≤ remaining) (hu : bytes.getByte.1 ≠ 0) :
    decodeBitStringAttempt sub 3 bytes remaining length = .ok (none, bytes, remaining) := by
  rw [decodeBitStringAttempt]
  rw [if_pos (rfl : (3 : Nat) = 3)]
  rw [checkBufferLength, if_neg (by omega)]
  try dsimp only []
  rw [if_neg hu]
  rfl

lemma derEncodeLen_len_pos (L : Nat) : 1 ≤ (derEncodeLen L).length := by
  rw [derEncodeLen]
  split <;> simp

lemma toDerBytes_ge2 (a : Asn1) : 2 ≤ (toDerBytes a).length := by
  cases a with
  | mk tc ty c comp v bits orig =>
    rw [toDerBytes.eq_def]
    try dsimp only []
    cases bits with
    | none =>
      simp only [List.length_cons, List.length_append]
      have := derEncodeLen_len_pos (toDerValueBytes (tc ||| ty) c comp ty v).1.length
      omega
    | some contents =>
      try dsimp only []
      split
      · simp only [List.length_cons, List.length_append]
        have := derEncodeLen_len_pos contents.length
        omega
      · simp only [List.length_cons, List.length_append]
        have := derEncodeLen_len_pos (toDerValueBytes (tc ||| ty) c comp ty v).1.length
        omega

/-- Destructured form of `goodNode` at a constructed (child-list) node. -/
lemma goodNode_parts_inr (dbs : Bool) (tc ty : Nat) (c comp : Bool)
    (children : List Asn1) (bits : Option (List Nat)) (orig : Option Asn1)
    (h : goodNode dbs (.mk tc ty c comp (.inr children) bits orig) = true) :
    (tc = 0 ∨ tc = 64 ∨ tc = 128 ∨ tc = 192) ∧ ty < 32 ∧ comp = c ∧
    bits = none ∧ orig = none ∧ c = true ∧ goodList dbs children = true := by
  have h2 : ((tc == 0 || tc == 0x40 || tc == 0x80 || tc == 0xC0) &&
      decide (ty < 32) &&
      (comp == c) && bits.isNone && orig.isNone &&
      (c && goodList dbs children)) = true := h
  simp only [Bool.and_eq_true] at h2
  obtain ⟨⟨⟨⟨⟨htc, hty⟩, hcomp⟩, hbits⟩, horig⟩, hc, hgl⟩ := h2
  refine ⟨?_, by simpa using hty, by simpa using hcomp,
    Option.isNone_iff_eq_none.mp hbits, Option.isNone_iff_eq_none.mp horig, hc, hgl⟩
  simp only [Bool.or_eq_true, beq_iff_eq] at htc
  tauto

/-- Destructured form of `goodNode` at a primitive (byte-string) node. -/
lemma goodNode_parts_inl (dbs : Bool) (tc ty : Nat) (c comp : Bool)
    (s : List Nat) (bits : Option (List Nat)) (orig : Option Asn1)
    (h : goodNode dbs (.mk tc ty c comp (.inl s) bits orig) = true) :
    (tc = 0 ∨ tc = 64 ∨ tc = 128 ∨ tc = 192) ∧ ty < 32 ∧ comp = c ∧
    bits = none ∧ orig = none ∧ c = false ∧
    (if ty == 30 then s.all (· < 65536) else s.all (· < 256)) = true ∧
    (!(ty == 2) || !(decide (1 < s.length) &&
       ((s.getD 0 0 == 0 && (s.getD 1 0) &&& 0x80 == 0) ||
        (s.getD 0 0 == 0xFF && (s.getD 1 0) &&& 0x80 == 0x80)))) = true ∧
    (!(dbs && tc == 0 && ty == 3) || (decide (s.length ≤ 1) || !(s.getD 0 0 == 0))) = true := by
  have h2 : ((tc == 0 || tc == 0x40 || tc == 0x80 || tc == 0xC0) &&
      decide (ty < 32) &&
      (comp == c) && bits.isNone && orig.isNone &&
      (!c &&
       (if ty == 30 then s.all (· < 65536) else s.all (· < 256)) &&
       (!(ty == 2) || !(decide (1 < s.length) &&
          ((s.getD 0 0 == 0 && (s.getD 1 0) &&& 0x80 == 0) ||
           (s.getD 0 0 == 0xFF && (s.getD 1 0) &&& 0x80 == 0x80)))) &&
       (!(dbs && tc == 0 && ty == 3) || (decide (s.length ≤ 1) || !(s.getD 0 0 == 0))))) =
      true := h
  simp only [Bool.and_eq_true] at h2
  obtain ⟨⟨⟨⟨⟨htc, hty⟩, hcomp⟩, hbits⟩, horig⟩, ⟨⟨hc, hif⟩, hx⟩, hy⟩ := h2
  refine ⟨?_, by simpa using hty, by simpa using hcomp,
    Option.isNone_iff_eq_none.mp hbits, Option.isNone_iff_eq_none.mp horig,
    by simpa using hc, hif, hx, hy⟩
  simp only [Bool.or_eq_true, beq_iff_eq] at htc
  tauto

mutual

/-- The embedding fuel needed for a round-trip-safe node is bounded by its
encoding length. -/
theorem fuelNode_le (dbs : Bool) (a : Asn1) (h : goodNode dbs a = true) :
    fuelNode a + 1 ≤ (toDerBytes a).length := by
  cases a with
  | mk tc ty c comp v bits orig =>
    rw [toDerBytes.eq_def]
    try dsimp only []
    have hd := derEncodeLen_len_pos (toDerValueBytes (tc ||| ty) c comp ty v).1.length
    have hv : bits = none ∧
        fuelValue v ≤ (toDerValueBytes (tc ||| ty) c comp ty v).1.length := by
      cases v with
      | inl s =>
        obtain ⟨-, -, -, hbits, -, -, -⟩ := goodNode_parts_inl dbs _ _ _ _ _ _ _ h
        exact ⟨hbits, by simp [fuelValue]⟩
      | inr children =>
        obtain ⟨-, -, hcomp, hbits, -, hc, hgl⟩ := goodNode_parts_inr dbs _ _ _ _ _ _ _ h
        subst hcomp
        subst hc
        refine ⟨hbits, ?_⟩
        rw [toDerValueBytes.eq_def]
        try dsimp only []
        rw [if_pos rfl]
        simp only [fuelValue]
        exact fuelList_le dbs children hgl
    obtain ⟨hbits, hv⟩ := hv
    subst hbits
    simp only [List.length_cons, List.length_append]
    simp only [fuelNode]
    omega
termination_by sizeOf a

/-- See `fuelNode_le`. -/
theorem fuelList_le (dbs : Bool) (l : List Asn1) (h : goodList dbs l = true) :
    fuelList l ≤ (toDerChildren l).length := by
  cases l with
  | nil => simp [fuelList, toDerChildren]
  | cons a rest =>
    simp only [goodList, Bool.and_eq_true] at h
    have h1 := fuelNode_le dbs a h.1
    have h2 := fuelList_le dbs rest h.2
    simp only [fuelList, toDerChildren, List.length_append]
    omega
termination_by sizeOf l

end

/-- `equalsNode` ignores the `bitStringContents` and `original` fields of its
first argument. -/
lemma equalsNode_bits_irrel (tc ty : Nat) (c comp : Bool) (v : List Nat ⊕ List Asn1)
    (b1 b2 : Option (List Nat)) (o1 o2 : Option Asn1) (x : Asn1) :
    equalsNode (.mk tc ty c comp v b1 o1) x = equalsNode (.mk tc ty c comp v b2 o2) x := by
  cases x
  rfl

/-- Round trip for a primitive (byte-string valued) node: parsing its
encoding yields a structurally equal node with the same re-encoding,
consuming exactly the encoding. -/
theorem roundTripPrim (dbs : Bool) (tc ty : Nat) (c comp : Bool) (s : List Nat)
    (bits : Option (List Nat)) (orig : Option Asn1)
    (fuel : Nat) (data : List Nat) (read : Nat) (rest : List Nat) (remaining : Int)
    (depth : Nat)
    (hg : goodNode dbs (.mk tc ty c comp (.inl s) bits orig) = true)
    (hfuel : 1 ≤ fuel)
    (hsize : (toDerBytes (.mk tc ty c comp (.inl s) bits orig)).length < 2147483648)
    (hdata : data.drop read = toDerBytes (.mk tc ty c comp (.inl s) bits orig) ++ rest)
    (hrem : ((toDerBytes (.mk tc ty c comp (.inl s) bits orig)).length : Int) ≤ remaining) :
    ∃ a2, fromDerAux fuel ⟨true, dbs⟩ ⟨data, read⟩ remaining depth =
        .ok (a2, ⟨data, read + (toDerBytes (.mk tc ty c comp (.inl s) bits orig)).length⟩) ∧
      equalsNode a2 (.mk tc ty c comp (.inl s) bits orig) = true ∧
      toDerBytes a2 = toDerBytes (.mk tc ty c comp (.inl s) bits orig) := by
  obtain ⟨htc, hty, hcomp, hbits, horig, hc, hif, hx, hy⟩ :=
    goodNode_parts_inl dbs _ _ _ _ _ _ _ hg
  subst hcomp
  subst hc
  subst hbits
  subst horig
  obtain ⟨ht192, ht31, ht32, ht256, -, -, -, -⟩ := tag_fields tc ty htc hty
  obtain ⟨fuel, rfl⟩ : ∃ m, fuel = m + 1 := ⟨fuel - 1, by omega⟩
  by_cases hty30 : ty = 30
  · -- BMPSTRING
    subst hty30
    have hall : s.all (· < 65536) = true := by simpa using hif
    have henc : toDerBytes (.mk tc 30 false false (.inl s) none none) =
        (tc ||| 30) :: (derEncodeLen (bmpBytes s).length ++ bmpBytes s) := by
      rw [toDerBytes.eq_def]
      try dsimp only []
      rw [toDerValueBytes.eq_def]
      try dsimp only []
      rw [if_neg (show ¬((false : Bool) = true) from by simp)]
      try dsimp only []
      try rw [if_pos (rfl : (30 : Nat) = 30)]
      try dsimp only []
      rw [Nat.mod_eq_of_lt (show tc ||| 30 < 65536 from by omega)]
      simp [List.cons_append]
    rw [henc] at hdata hrem hsize ⊢
    have hdata1 : data.drop read = (tc ||| 30) ::
        (derEncodeLen (bmpBytes s).length ++ (bmpBytes s ++ rest)) := by
      simpa [List.append_assoc] using hdata
    have hb1 : data.getD read 0 = tc ||| 30 := getD_of_drop _ _ _ _ hdata1
    have hdrop1 : data.drop (read + 1) =
        derEncodeLen (bmpBytes s).length ++ (bmpBytes s ++ rest) :=
      drop_succ_of_drop _ _ _ _ hdata1
    have hdrop2 : data.drop (read + 1 + (derEncodeLen (bmpBytes s).length).length) =
        bmpBytes s ++ rest := by
      have := drop_shift data (derEncodeLen (bmpBytes s).length) (bmpBytes s ++ rest)
        (read + 1) hdrop1
      simpa [Nat.add_assoc] using this
    have hd := derEncodeLen_len_pos (bmpBytes s).length
    simp only [List.length_cons, List.length_append] at hrem hsize
    rw [fromDerAux]
    try dsimp only []
    rw [checkBufferLength, if_neg (by push_cast at hrem ⊢; omega)]
    try dsimp only []
    simp only [ByteStringBuffer.getByte, ByteStringBuffer.charCodeAt, hb1]
    rw [ht192, ht31]
    rw [parse_derEncodeLen (bmpBytes s).length data (read + 1) (bmpBytes s ++ rest)
      (remaining - 1) (by omega) hdrop1 (by push_cast at hrem ⊢; omega)]
    try dsimp only []
    have hconsA : (⟨data, read + 1⟩ : ByteStringBuffer).length -
        (⟨data, read + 1 + (derEncodeLen (bmpBytes s).length).length⟩ :
          ByteStringBuffer).length = ((derEncodeLen (bmpBytes s).length).length : Int) := by
      simp only [ByteStringBuffer.length]
      push_cast
      ring
    rw [hconsA]
    rw [if_neg (by push_cast at hrem ⊢; omega)]
    try dsimp only []
    rw [if_neg ht32]
    try dsimp only []
    rw [if_neg (show ¬(tc = 0 ∧ (30 : Nat) = 3) from fun hcc => by norm_num at hcc)]
    rw [if_neg (show ¬(dbs = true ∧ tc = 0 ∧ (30 : Nat) = 3 ∧
      1 < ((bmpBytes s).length : Int)) from fun hcc => by
        have := hcc.2.2.1
        norm_num at this)]
    try dsimp only []
    rw [if_pos (rfl : (30 : Nat) = 30)]
    have hbmp : bmpReadLoop ⟨data, read + 1 + (derEncodeLen (bmpBytes s).length).length⟩
        (remaining - 1 - ((derEncodeLen (bmpBytes s).length).length : Int))
        ((bmpBytes s).length : Int) =
        .ok (s, ⟨data, read + 1 + (derEncodeLen (bmpBytes s).length).length +
          (bmpBytes s).length⟩,
          remaining - 1 - ((derEncodeLen (bmpBytes s).length).length : Int) -
            ((bmpBytes s).length : Int)) := by
      rw [bmpBytes_length]
      exact bmpReadLoop_of_bmpBytes s data _ rest _ (by rw [← bmpBytes_length]; exact hdrop2)
        hall (by rw [← bmpBytes_length]; push_cast at hrem ⊢; omega)
    rw [hbmp]
    try dsimp only []
    rw [decide_eq_false ht32]
    refine ⟨create tc 30 false (.inl s) none, ?_, ?_, ?_⟩
    · have e1 : read + 1 + (derEncodeLen (bmpBytes s).length).length + (bmpBytes s).length =
          read + ((tc ||| 30) :: (derEncodeLen (bmpBytes s).length ++ bmpBytes s)).length := by
        simp only [List.length_cons, List.length_append]
        omega
      rw [e1]
    · simp [create, equalsNode, equalsValue, isNodes]
    · rw [show toDerBytes (create tc 30 false (.inl s) none) =
          toDerBytes (.mk tc 30 false false (.inl s) none none) from rfl, henc]
  · -- value emitted as-is
    have hstrip : ¬(1 < s.length ∧ ty = 2 ∧
        ((s.getD 0 0 = 0 ∧ (s.getD 1 0) &&& 0x80 = 0) ∨
         (s.getD 0 0 = 0xFF ∧ (s.getD 1 0) &&& 0x80 = 0x80))) := by
      rintro ⟨hl1, hl2, hl3⟩
      have hx2 := hx
      rw [Bool.or_eq_true] at hx2
      rcases hx2 with h1 | h1
      · simp only [Bool.not_eq_true', beq_eq_false_iff_ne] at h1
        exact h1 hl2
      · simp only [Bool.not_eq_true'] at h1
        rw [Bool.and_eq_false_iff] at h1
        rcases h1 with h1 | h1
        · simp [hl1] at h1
        · rw [Bool.or_eq_false_iff] at h1
          rcases hl3 with ⟨ha, hb⟩ | ⟨ha, hb⟩
          · have := h1.1
            rw [ha, hb] at this
            simp at this
          · have := h1.2
            rw [ha, hb] at this
            simp at this
    have henc : toDerBytes (.mk tc ty false false (.inl s) none none) =
        (tc ||| ty) :: (derEncodeLen s.length ++ s) := by
      rw [toDerBytes.eq_def]
      try dsimp only []
      rw [toDerValueBytes.eq_def]
      try dsimp only []
      rw [if_neg (show ¬((false : Bool) = true) from by simp)]
      try dsimp only []
      rw [if_neg hty30, if_neg hstrip]
      try dsimp only []
      rw [Nat.mod_eq_of_lt (show tc ||| ty < 65536 from by omega)]
      simp [List.cons_append]
    rw [henc] at hdata hrem hsize ⊢
    have hdata1 : data.drop read = (tc ||| ty) ::
        (derEncodeLen s.length ++ (s ++ rest)) := by
      simpa [List.append_assoc] using hdata
    have hb1 : data.getD read 0 = tc ||| ty := getD_of_drop _ _ _ _ hdata1
    have hdrop1 : data.drop (read + 1) = derEncodeLen s.length ++ (s ++ rest) :=
      drop_succ_of_drop _ _ _ _ hdata1
    have hdrop2 : data.drop (read + 1 + (derEncodeLen s.length).length) = s ++ rest := by
      have := drop_shift data (derEncodeLen s.length) (s ++ rest) (read + 1) hdrop1
      simpa [Nat.add_assoc] using this
    have hd := derEncodeLen_len_pos s.length
    simp only [List.length_cons, List.length_append] at hrem hsize
    rw [fromDerAux]
    try dsimp only []
    rw [checkBufferLength, if_neg (by push_cast at hrem ⊢; omega)]
    try dsimp only []
    simp only [ByteStringBuffer.getByte, ByteStringBuffer.charCodeAt, hb1]
    rw [ht192, ht31]
    rw [parse_derEncodeLen s.length data (read + 1) (s ++ rest)
      (remaining - 1) (by omega) hdrop1 (by push_cast at hrem ⊢; omega)]
    try dsimp only []
    have hconsA : (⟨data, read + 1⟩ : ByteStringBuffer).length -
        (⟨data, read + 1 + (derEncodeLen s.length).length⟩ :
          ByteStringBuffer).length = ((derEncodeLen s.length).length : Int) := by
      simp only [ByteStringBuffer.length]
      push_cast
      ring
    rw [hconsA]
    rw [if_neg (by push_cast at hrem ⊢; omega)]
    try dsimp only []
    rw [if_neg ht32]
    try dsimp only []
    rw [decide_eq_false ht32]
    have hraw : ByteStringBuffer.getBytesInt
        ⟨data, read + 1 + (derEncodeLen s.length).length⟩ ((s.length : Nat) : Int) =
        (s, ⟨data, read + 1 + (derEncodeLen s.length).length + s.length⟩) :=
      getBytesInt_of_drop data _ s rest hdrop2
    have hbitsOpt : ByteStringBuffer.bytesOpt
        ⟨data, read + 1 + (derEncodeLen s.length).length⟩ (some ((s.length : Nat) : Int)) =
        s := bytesOpt_of_drop data _ s rest hdrop2
    by_cases hbit : tc = 0 ∧ ty = 3
    · -- BIT STRING: the parser stores bitStringContents
      obtain ⟨hbtc, hbty⟩ := hbit
      subst hbtc
      subst hbty
      rw [if_pos (show (0 : Nat) = 0 ∧ (3 : Nat) = 3 from ⟨rfl, rfl⟩)]
      rw [hbitsOpt]
      by_cases hP : dbs = true ∧ 1 < ((s.length : Nat) : Int)
      · -- the heuristic runs and is abandoned on the nonzero unused-bits byte
        obtain ⟨hdbs, hgt1⟩ := hP
        subst hdbs
        have hslen : 1 < s.length := by exact_mod_cast hgt1
        obtain ⟨s0, stail, rfl⟩ : ∃ s0 stail, s = s0 :: stail := by
          cases s with
          | nil => simp at hslen
          | cons s0 stail => exact ⟨s0, stail, rfl⟩
        have hs0 : s0 ≠ 0 := by
          have hy2 := hy
          rw [Bool.or_eq_true] at hy2
          rcases hy2 with h1 | h1
          · simp at h1
          · rw [Bool.or_eq_true] at h1
            rcases h1 with h2 | h2
            · simp only [decide_eq_true_eq] at h2
              omega
            · simpa using h2
        rw [if_pos (And.intro rfl (And.intro rfl (And.intro rfl hgt1)))]
        have hbyte : (⟨data, read + 1 +
            (derEncodeLen (s0 :: stail).length).length⟩ : ByteStringBuffer).getByte.1 =
            s0 := by
          simp only [ByteStringBuffer.getByte, ByteStringBuffer.charCodeAt]
          exact getD_of_drop _ _ _ _ (by simpa using hdrop2)
        rw [dbsa_abandon_nonzero _ _ _ _ (by push_cast at hrem ⊢; omega)
          (by rw [hbyte]; exact hs0)]
        try dsimp only []
        simp only [Option.map_none']
        try dsimp only []
        rw [if_neg (show ¬((3 : Nat) = 30) from by norm_num)]
        rw [hraw]
        try dsimp only []
        refine ⟨create 0 3 false (.inl (s0 :: stail)) (some (s0 :: stail)), ?_, ?_, ?_⟩
        · have e1 : read + 1 + (derEncodeLen (s0 :: stail).length).length +
              (s0 :: stail).length =
              read + ((0 ||| 3) :: (derEncodeLen (s0 :: stail).length ++ (s0 :: stail))).length := by
            simp only [List.length_cons, List.length_append]
            omega
          rw [e1]
        · simp [create, equalsNode, equalsValue, isNodes]
        · have hsnap : toDerBytes (create 0 3 false (.inl (s0 :: stail))
              (some (s0 :: stail))) =
              (3 : Nat) :: (derEncodeLen (s0 :: stail).length ++ (s0 :: stail)) := by
            rw [show create 0 3 false (Sum.inl (s0 :: stail)) (some (s0 :: stail)) =
              Asn1.mk 0 3 false false (Sum.inl (s0 :: stail)) (some (s0 :: stail))
                (some (copyNode none (Asn1.mk 0 3 false false (Sum.inl (s0 :: stail))
                  (some (s0 :: stail)) none))) from by simp [create, isNodes]]
            rw [toDerBytes.eq_def]
            try dsimp only []
            simp only [Asn1.original]
            try dsimp only []
            rw [if_pos (show equalsNode (Asn1.mk 0 3 false false (Sum.inl (s0 :: stail))
                (some (s0 :: stail)) (some (copyNode none (Asn1.mk 0 3 false false
                  (Sum.inl (s0 :: stail)) (some (s0 :: stail)) none))))
                (copyNode none (Asn1.mk 0 3 false false (Sum.inl (s0 :: stail))
                  (some (s0 :: stail)) none)) = true from by
              rw [equalsNode_bits_irrel 0 3 false false (Sum.inl (s0 :: stail))
                (some (s0 :: stail)) (some (s0 :: stail)) _ none]
              exact equalsNode_copy none _)]
            try dsimp only []
            rw [Nat.mod_eq_of_lt (show (0 ||| 3 : Nat) < 65536 from by norm_num)]
            norm_num [List.cons_append]
          rw [hsnap]
          norm_num
      · -- heuristic disabled or value too short: straight to the raw value
        rw [if_neg (show ¬(dbs = true ∧ (0 : Nat) = 0 ∧ (3 : Nat) = 3 ∧
            1 < ((s.length : Nat) : Int)) from fun hcc => hP ⟨hcc.1, hcc.2.2.2⟩)]
        try dsimp only []
        rw [if_neg (show ¬((3 : Nat) = 30) from by norm_num)]
        rw [hraw]
        try dsimp only []
        refine ⟨create 0 3 false (.inl s) (some s), ?_, ?_, ?_⟩
        · have e1 : read + 1 + (derEncodeLen s.length).length + s.length =
              read + ((0 ||| 3) :: (derEncodeLen s.length ++ s)).length := by
            simp only [List.length_cons, List.length_append]
            omega
          rw [e1]
        · simp [create, equalsNode, equalsValue, isNodes]
        · have hsnap : toDerBytes (create 0 3 false (.inl s) (some s)) =
              (3 : Nat) :: (derEncodeLen s.length ++ s) := by
            rw [show create 0 3 false (Sum.inl s) (some s) =
              Asn1.mk 0 3 false false (Sum.inl s) (some s)
                (some (copyNode none (Asn1.mk 0 3 false false (Sum.inl s)
                  (some s) none))) from by simp [create, isNodes]]
            rw [toDerBytes.eq_def]
            try dsimp only []
            simp only [Asn1.original]
            try dsimp only []
            rw [if_pos (show equalsNode (Asn1.mk 0 3 false false (Sum.inl s)
                (some s) (some (copyNode none (Asn1.mk 0 3 false false
                  (Sum.inl s) (some s) none))))
                (copyNode none (Asn1.mk 0 3 false false (Sum.inl s)
                  (some s) none)) = true from by
              rw [equalsNode_bits_irrel 0 3 false false (Sum.inl s)
                (some s) (some s) _ none]
              exact equalsNode_copy none _)]
            try dsimp only []
            rw [Nat.mod_eq_of_lt (show (0 ||| 3 : Nat) < 65536 from by norm_num)]
            norm_num [List.cons_append]
          rw [hsnap]
          norm_num
    · -- not a BIT STRING: no contents are stored
      rw [if_neg hbit]
      rw [if_neg (show ¬(dbs = true ∧ tc = 0 ∧ ty = 3 ∧
          1 < ((s.length : Nat) : Int)) from fun hcc => hbit ⟨hcc.2.1, hcc.2.2.1⟩)]
      try dsimp only []
      rw [if_neg hty30]
      rw [hraw]
      try dsimp only []
      refine ⟨create tc ty false (.inl s) none, ?_, ?_, ?_⟩
      · have e1 : read + 1 + (derEncodeLen s.length).length + s.length =
            read + ((tc ||| ty) :: (derEncodeLen s.length ++ s)).length := by
          simp only [List.length_cons, List.length_append]
          omega
        rw [e1]
      · simp [create, equalsNode, equalsValue, isNodes]
      · rw [show toDerBytes (create tc ty false (.inl s) none) =
            toDerBytes (.mk tc ty false false (.inl s) none none) from rfl, henc]

/-- Encoding of a constructed round-trip-safe node: tag byte with bit 6 set,
DER length of the concatenated children, then the children's encodings. -/
lemma toDerBytes_constructed (tc ty : Nat) (children : List Asn1)
    (h : (tc ||| ty) ||| 32 < 65536) :
    toDerBytes (.mk tc ty true true (.inr children) none none) =
      ((tc ||| ty) ||| 32) ::
        (derEncodeLen (toDerChildren children).length ++ toDerChildren children) := by
  rw [toDerBytes.eq_def]
  try dsimp only []
  rw [toDerValueBytes.eq_def]
  try dsimp only []
  rw [if_pos rfl]
  try dsimp only []
  rw [if_pos rfl]
  try dsimp only []
  rw [Nat.mod_eq_of_lt h]
  simp [List.cons_append]

mutual

/-- Round trip for any round-trip-safe node: parsing its encoding in strict
mode yields a structurally equal node with the same re-encoding, consuming
exactly the encoding. -/
theorem roundTripNode (dbs : Bool) (a : Asn1) (fuel : Nat) (data : List Nat)
    (read : Nat) (rest : List Nat) (remaining : Int) (depth : Nat)
    (hg : goodNode dbs a = true)
    (hfuel : fuelNode a ≤ fuel)
    (hsize : (toDerBytes a).length < 2147483648)
    (hdata : data.drop read = toDerBytes a ++ rest)
    (hrem : ((toDerBytes a).length : Int) ≤ remaining) :
    ∃ a2, fromDerAux fuel ⟨true, dbs⟩ ⟨data, read⟩ remaining depth =
        .ok (a2, ⟨data, read + (toDerBytes a).length⟩) ∧
      equalsNode a2 a = true ∧ toDerBytes a2 = toDerBytes a := by
  cases a with
  | mk tc ty c comp v bits orig =>
    cases v with
    | inl s =>
      simp only [fuelNode, fuelValue] at hfuel
      exact roundTripPrim dbs tc ty c comp s bits orig fuel data read rest remaining
        depth hg (by omega) hsize hdata hrem
    | inr children =>
      obtain ⟨htc, hty, hcomp, hbits, horig, hc, hgl⟩ :=
        goodNode_parts_inr dbs _ _ _ _ _ _ _ hg
      subst hcomp
      subst hc
      subst hbits
      subst horig
      obtain ⟨-, -, -, -, h5, h6, h7, h8⟩ := tag_fields tc ty htc hty
      have henc := toDerBytes_constructed tc ty children (by omega)
      rw [henc] at hdata hrem hsize ⊢
      have hdata1 : data.drop read = ((tc ||| ty) ||| 32) ::
          (derEncodeLen (toDerChildren children).length ++
            (toDerChildren children ++ rest)) := by
        simpa [List.append_assoc] using hdata
      have hb1 : data.getD read 0 = (tc ||| ty) ||| 32 := getD_of_drop _ _ _ _ hdata1
      have hdrop1 : data.drop (read + 1) =
          derEncodeLen (toDerChildren children).length ++
            (toDerChildren children ++ rest) :=
        drop_succ_of_drop _ _ _ _ hdata1
      have hdrop2 : data.drop (read + 1 +
          (derEncodeLen (toDerChildren children).length).length) =
          toDerChildren children ++ rest := by
        have := drop_shift data (derEncodeLen (toDerChildren children).length)
          (toDerChildren children ++ rest) (read + 1) hdrop1
        simpa [Nat.add_assoc] using this
      have hd := derEncodeLen_len_pos (toDerChildren children).length
      simp only [List.length_cons, List.length_append] at hrem hsize
      simp only [fuelNode, fuelValue] at hfuel
      obtain ⟨fuel, rfl⟩ : ∃ m, fuel = m + 1 := ⟨fuel - 1, by omega⟩
      rw [fromDerAux]
      try dsimp only []
      rw [checkBufferLength, if_neg (by push_cast at hrem ⊢; omega)]
      try dsimp only []
      simp only [ByteStringBuffer.getByte, ByteStringBuffer.charCodeAt, hb1]
      rw [h5, h6]
      rw [parse_derEncodeLen (toDerChildren children).length data (read + 1)
        (toDerChildren children ++ rest) (remaining - 1) (by omega) hdrop1
        (by push_cast at hrem ⊢; omega)]
      try dsimp only []
      have hconsA : (⟨data, read + 1⟩ : ByteStringBuffer).length -
          (⟨data, read + 1 +
            (derEncodeLen (toDerChildren children).length).length⟩ :
            ByteStringBuffer).length =
          ((derEncodeLen (toDerChildren children).length).length : Int) := by
        simp only [ByteStringBuffer.length]
        push_cast
        ring
      rw [hconsA]
      rw [if_neg (by push_cast at hrem ⊢; omega)]
      try dsimp only []
      rw [if_pos h7]
      try dsimp only []
      obtain ⟨l2, hplist, heqlist, henclist⟩ := roundTripList dbs children fuel data
        (read + 1 + (derEncodeLen (toDerChildren children).length).length) rest
        (remaining - 1 - (derEncodeLen (toDerChildren children).length).length) depth
        hgl (by omega) (by omega) hdrop2
      rw [hplist]
      try dsimp only []
      rw [decide_eq_true h7]
      refine ⟨create tc ty true (.inr l2) none, ?_, ?_, ?_⟩
      · have e1 : read + 1 + (derEncodeLen (toDerChildren children).length).length +
            (toDerChildren children).length =
            read + (((tc ||| ty) ||| 32) ::
              (derEncodeLen (toDerChildren children).length ++
                toDerChildren children)).length := by
          simp only [List.length_cons, List.length_append]
          omega
        rw [e1]
      · simp [create, equalsNode, equalsValue, isNodes, heqlist]
      · rw [show create tc ty true (.inr l2) none =
            Asn1.mk tc ty true true (.inr l2) none none from by simp [create, isNodes]]
        rw [toDerBytes_constructed tc ty l2 (by omega), henclist]

/-- Round trip for the definite-length child loop over the concatenated
encodings of a list of round-trip-safe nodes. -/
theorem roundTripList (dbs : Bool) (l : List Asn1) (fuel : Nat) (data : List Nat)
    (read : Nat) (rest : List Nat) (remaining : Int) (depth : Nat)
    (hg : goodList dbs l = true)
    (hfuel : fuelList l ≤ fuel)
    (hsize : (toDerChildren l).length < 2147483648)
    (hdata : data.drop read = toDerChildren l ++ rest) :
    ∃ l2, fromDerChildrenDefinite fuel ⟨true, dbs⟩ ⟨data, read⟩
        ((toDerChildren l).length : Int) remaining depth =
        .ok (l2, ⟨data, read + (toDerChildren l).length⟩,
          remaining - ((toDerChildren l).length : Int)) ∧
      equalsList l2 l = true ∧ toDerChildren l2 = toDerChildren l := by
  cases l with
  | nil =>
    refine ⟨[], ?_, rfl, rfl⟩
    rw [fromDerChildrenDefinite.eq_def]
    rw [if_neg (by simp [toDerChildren])]
    simp [toDerChildren]
  | cons a rest2 =>
    simp only [goodList, Bool.and_eq_true] at hg
    obtain ⟨hga, hgr⟩ := hg
    simp only [fuelList] at hfuel
    simp only [toDerChildren] at hsize hdata ⊢
    have hga2 := toDerBytes_ge2 a
    obtain ⟨fuel, rfl⟩ : ∃ m, fuel = m + 1 := ⟨fuel - 1, by omega⟩
    rw [fromDerChildrenDefinite.eq_def]
    rw [if_pos (show (0 : Int) <
        ((toDerBytes a ++ toDerChildren rest2).length : Int) from by
      simp only [List.length_append]
      push_cast
      omega)]
    try dsimp only []
    obtain ⟨a2, hpa, heqa, henca⟩ := roundTripNode dbs a fuel data read
      (toDerChildren rest2 ++ rest)
      ((toDerBytes a ++ toDerChildren rest2).length : Int) (depth + 1) hga
      (by omega)
      (by simp only [List.length_append] at hsize ⊢; omega)
      (by simpa [List.append_assoc] using hdata)
      (by simp only [List.length_append]; push_cast; omega)
    rw [hpa]
    try dsimp only []
    have hcons : (⟨data, read⟩ : ByteStringBuffer).length -
        (⟨data, read + (toDerBytes a).length⟩ : ByteStringBuffer).length =
        ((toDerBytes a).length : Int) := by
      simp only [ByteStringBuffer.length]
      push_cast
      ring
    rw [hcons]
    have harg : ((toDerBytes a ++ toDerChildren rest2).length : Int) -
        ((toDerBytes a).length : Int) = ((toDerChildren rest2).length : Int) := by
      simp only [List.length_append]
      push_cast
      ring
    rw [harg]
    obtain ⟨l2, hpl, heql, hencl⟩ := roundTripList dbs rest2 fuel data
      (read + (toDerBytes a).length) rest
      (remaining - ((toDerBytes a).length : Int)) depth hgr (by omega)
      (by simp only [List.length_append] at hsize; omega)
      (by have := drop_shift data (toDerBytes a) (toDerChildren rest2 ++ rest) read
            (by simpa [List.append_assoc] using hdata)
          exact this)
    rw [hpl]
    try dsimp only []
    refine ⟨a2 :: l2, ?_, ?_, ?_⟩
    · have e1 : read + (toDerBytes a).length + (toDerChildren rest2).length =
          read + (toDerBytes a ++ toDerChildren rest2).length := by
        simp only [List.length_append]
        omega
      have e2 : remaining - ((toDerBytes a).length : Int) -
          ((toDerChildren rest2).length : Int) =
          remaining - ((toDerBytes a ++ toDerChildren rest2).length : Int) := by
        simp only [List.length_append]
        push_cast
        ring
      rw [e1, e2]
    · simp [equalsList, heqa, heql]
    · simp only [toDerChildren, henca, hencl]

end

/-- `fromDer` on exactly the encoding of a round-trip-safe tree succeeds,
returns a structurally equal tree with the same re-encoding, and consumes
all bytes (so the parse-all-bytes check passes). -/
lemma fromDer_toDerBytes (dbs : Bool) (a : Asn1) (fuel : Nat)
    (hg : goodNode dbs a = true)
    (hfuel : (toDerBytes a).length ≤ fuel)
    (hsize : (toDerBytes a).length < 2147483648) :
    ∃ a2, fromDer fuel (toDerBytes a) true true dbs = .ok a2 ∧
      equalsNode a2 a = true ∧ toDerBytes a2 = toDerBytes a := by
  obtain ⟨a2, hp, heq, henc2⟩ := roundTripNode dbs a fuel (toDerBytes a) 0 []
    ((toDerBytes a).length : Int) 0 hg
    (by have := fuelNode_le dbs a hg; omega) hsize (by simp) le_rfl
  refine ⟨a2, ?_, heq, henc2⟩
  rw [fromDer]
  try dsimp only []
  rw [show createBufferOf (toDerBytes a) = (⟨toDerBytes a, 0⟩ : ByteStringBuffer)
    from rfl]
  have hlen0 : (⟨toDerBytes a, 0⟩ : ByteStringBuffer).length =
      ((toDerBytes a).length : Int) := by
    simp [ByteStringBuffer.length]
  rw [hlen0]
  rw [hp]
  try dsimp only []
  rw [if_neg (show ¬((true = true) ∧
      (⟨toDerBytes a, 0 + (toDerBytes a).length⟩ : ByteStringBuffer).length ≠ 0)
    from fun hcc => hcc.2 (by simp [ByteStringBuffer.length]))]

/-- **C1.** The claim as stated — round trip for *every* tree without
`bitStringContents` — fails (see `c1_counterexample`: `toDer` minimises
non-minimal INTEGER values, so such a tree does not parse back equal).
Amended round trip: for every round-trip-safe tree (`goodNode true`: valid
tag class, low-tag-number form, `composed = constructed`, no
`bitStringContents`/`original` snapshots, byte-string leaves that are
minimal INTEGERs and do not trigger the BIT-STRING heuristic), parsing the
encoding with the default options (`strict`, `parseAllBytes`,
`decodeBitStrings` all true) succeeds and yields a structurally equal tree
(`equals`, which ignores the snapshot fields). -/
theorem c1_good_tree_round_trip (a : Asn1) (fuel : Nat)
    (hg : goodNode true a = true)
    (hfuel : (toDerBytes a).length ≤ fuel)
    (hsize : (toDerBytes a).length < 2147483648) :
    ∃ a2, fromDer fuel (toDerBytes a) true true true = .ok a2 ∧
      equalsNode a2 a = true :=
  let ⟨a2, hp, heq, _⟩ := fromDer_toDerBytes true a fuel hg hfuel hsize
  ⟨a2, hp, heq⟩

/-- Witness for `c1_good_tree_round_trip`: the INTEGER node `[0x05]`. -/
theorem c1_good_tree_round_trip_witness :
    goodNode true (Asn1.mk 0 2 false false (Sum.inl [5]) none none) = true ∧
    ∃ a2, fromDer 10 (toDerBytes (Asn1.mk 0 2 false false (Sum.inl [5]) none none))
        true true true = .ok a2 ∧
      equalsNode a2 (Asn1.mk 0 2 false false (Sum.inl [5]) none none) = true :=
  ⟨rfl, c1_good_tree_round_trip (Asn1.mk 0 2 false false (Sum.inl [5]) none none)
    10 rfl (by decide) (by decide)⟩

/-- Counterexample to C1 as stated: the INTEGER node with value bytes
`[0x00, 0x7F]` carries no `bitStringContents`, yet `toDer` strips the
redundant leading zero (minimal encoding), so the parse of its encoding
returns value `[0x7F]` and the structural comparison yields `false`. -/
theorem c1_counterexample :
    (fromDer 10 (toDerBytes (create 0 2 false (Sum.inl [0, 127]) none))
        true true true).map
      (fun a2 => equalsNode a2 (create 0 2 false (Sum.inl [0, 127]) none)) =
      .ok false := rfl

/-- **C2.** Idempotence on canonical DER: for every byte string that is
canonical DER (modelled by `CanonicalDer`: the encodings of round-trip-safe
trees — one tag byte, definite minimal lengths, minimally-encoded INTEGERs),
parsing with `decodeBitStrings` disabled (the other options at their `true`
defaults) succeeds and re-encoding the resulting tree reproduces exactly the
original bytes.  The byte string must fit the parser's int32 length
arithmetic and the fuel must cover the (nesting-bounded) recursion. -/
theorem c2_canonical_der_idempotent (bytes : List Nat) (fuel : Nat)
    (hc : CanonicalDer bytes)
    (hfuel : bytes.length ≤ fuel)
    (hsize : bytes.length < 2147483648) :
    ∃ a2, fromDer fuel bytes true true false = .ok a2 ∧ toDerBytes a2 = bytes := by
  obtain ⟨a, hg, rfl⟩ := hc
  obtain ⟨a2, hp, -, henc2⟩ := fromDer_toDerBytes false a fuel hg hfuel hsize
  exact ⟨a2, hp, henc2⟩

/-- Witness for `c2_canonical_der_idempotent`: the NULL encoding `[0x05, 0x00]`. -/
theorem c2_canonical_der_idempotent_witness :
    CanonicalDer [5, 0] ∧
    ∃ a2, fromDer 2 [5, 0] true true false = .ok a2 ∧ toDerBytes a2 = [5, 0] :=
  ⟨⟨Asn1.mk 0 5 false false (Sum.inl []) none none, by decide, by decide⟩,
   c2_canonical_der_idempotent [5, 0] 2
     ⟨Asn1.mk 0 5 false false (Sum.inl []) none none, by decide, by decide⟩
     (by decide) (by decide)⟩

end Forgeron
